import Mathlib

/-!
# Account server: game-server coordination layer

A shallow embedding of `src/account-server/serverhandler.cpp`: the table of
connected game servers, the maps each of them has registered, the statistics
stored per map, and the message handler `ServerHandler::processMessage`.

Machine integers are `Nat`/`Int` with the wrap-around written out where the
source narrows a value (`unsigned short` keys and counters, the `short` port).
Collaborators whose source is not part of the embedded files (message codec,
character store, token dispenser, connection bookkeeping) are modelled from the
specification and marked as such.
-/

namespace Manaserv

/-! ## Machine integers -/

/-- Conversion of an `int` to `unsigned short`: the value modulo 2^16. -/
def toUShort (v : Int) : Nat := (v % 65536).toNat

/-- Conversion of an `int` to `short`: two's complement wrap into -32768..32767. -/
def toShort (v : Int) : Int := (v + 32768) % 65536 - 32768

/-! ## Map statistics (`struct MapStatistics`, `ServerStatistics`) -/

/-- The `struct MapStatistics`: player ids, `unsigned short` counters. -/
structure MapStatistics where
  players : List Int
  nbThings : Nat
  nbMonsters : Nat
deriving DecidableEq, Repr

/-- A value-initialised `MapStatistics`, as `std::map::operator[]` creates it. -/
def MapStatistics.zero : MapStatistics := { players := [], nbThings := 0, nbMonsters := 0 }

/-- The `std::map< unsigned short, MapStatistics >`, as its key-ordered list of entries. -/
abbrev ServerStatistics := List (Nat × MapStatistics)

/-- The `maps.find(key)`: the value stored under `key`, if any. -/
def ServerStatistics.find : ServerStatistics → Nat → Option MapStatistics
  | [], _ => none
  | (k, v) :: rest, key => if k = key then some v else ServerStatistics.find rest key

/-- The `maps[key]` as far as it changes the table: an absent key gets a
value-initialised entry at its place in key order, a present key changes nothing. -/
def ServerStatistics.subscript : ServerStatistics → Nat → ServerStatistics
  | [], key => [(key, MapStatistics.zero)]
  | (k, v) :: rest, key =>
    if key < k then (key, MapStatistics.zero) :: (k, v) :: rest
    else if k = key then (k, v) :: rest
    else (k, v) :: ServerStatistics.subscript rest key

/-- A write through the reference `MapStatistics &m` to the entry stored under `key`. -/
def ServerStatistics.assign : ServerStatistics → Nat → (MapStatistics → MapStatistics) → ServerStatistics
  | [], _, _ => []
  | (k, v) :: rest, key, f =>
    if k = key then (k, f v) :: rest else (k, v) :: ServerStatistics.assign rest key f

/-- The keys of a statistics table, in table order. -/
def ServerStatistics.keys (maps : ServerStatistics) : List Nat := maps.map Prod.fst

/-! ## Connected game servers (`struct GameServer`) -/

/-- The `struct GameServer`. `peer` is the identity of the connection (the
object created by `computerConnected`); `port` is a `short`. The pointer member
`server` is never read or written by the handler and is left out. -/
structure GameServer where
  peer : Nat
  address : String
  maps : ServerStatistics
  port : Int
deriving DecidableEq, Repr

/-- The constructor `GameServer(ENetPeer *peer)`: empty address, no maps, `port(0)`. -/
def GameServer.new (peer : Nat) : GameServer :=
  { peer := peer, address := "", maps := [], port := 0 }

/-! ## Collaborators modelled from the specification -/

/-- Modelled from the spec: the serialized gameplay payload of a character
(`serialize/characterdata.hpp` is missing). The payload carries the current map
and further attributes that this layer does not interpret. -/
structure CharacterData where
  mapId : Int
  attributes : List Int
deriving DecidableEq, Repr

/-- Modelled from the spec: the CharacterRecord (`account-server/character.hpp`
is missing): database id, account id, name and the gameplay payload. -/
structure Character where
  databaseID : Int
  accountID : Int
  name : String
  data : CharacterData
deriving DecidableEq, Repr

/-- Modelled from the spec: `Character::getMapId`, the current map of the record. -/
def Character.getMapId (c : Character) : Int := c.data.mapId

/-- Modelled from the spec: `serializeCharacterData`, the payload of a record. -/
def serializeCharacterData (c : Character) : CharacterData := c.data

/-- Modelled from the spec: `deserializeCharacterData`, applying a payload onto
the in-memory record. -/
def deserializeCharacterData (c : Character) (d : CharacterData) : Character :=
  { c with data := d }

/-- Modelled from the spec: the CharacterStore (`account-server/dalstorage.hpp`
is missing): character records, quest variables, ban state, and whether the
store currently rejects character writes. -/
structure Storage where
  characters : List Character
  questVars : List ((Int × String) × String)
  bans : List (Int × Int)
  rejectsWrites : Bool
deriving DecidableEq, Repr

/-- Modelled from the spec: `Storage::getCharacter(id, NULL)`, a copy of the
record with that database id, or none. -/
def Storage.getCharacter (s : Storage) (id : Int) : Option Character :=
  s.characters.find? (fun c => c.databaseID = id)

/-- Modelled from the spec: `Storage::updateCharacter`, which writes the record
back and reports whether the store accepted the write. -/
def Storage.updateCharacter (s : Storage) (c : Character) : Storage × Bool :=
  if s.rejectsWrites then (s, false)
  else ({ s with characters :=
            s.characters.map (fun x => if x.databaseID = c.databaseID then c else x) }, true)

/-- Modelled from the spec: `Storage::getQuestVar`, the (possibly empty) value
of a named variable of a character. -/
def Storage.getQuestVar (s : Storage) (id : Int) (name : String) : String :=
  match s.questVars.find? (fun e => e.1 = (id, name)) with
  | some e => e.2
  | none => ""

/-- Modelled from the spec: `Storage::setQuestVar`, writing a named variable. -/
def Storage.setQuestVar (s : Storage) (id : Int) (name value : String) : Storage :=
  { s with questVars :=
      ((id, name), value) :: s.questVars.filter (fun e => ¬ (e.1 = (id, name))) }

/-- Modelled from the spec: `Storage::banCharacter`, recording a ban duration. -/
def Storage.banCharacter (s : Storage) (id : Int) (duration : Int) : Storage :=
  { s with bans := (id, duration) :: s.bans.filter (fun e => ¬ (e.1 = id)) }

/-- Modelled from the spec: the identifiers of outbound messages (the protocol
constants of `defs.h`, whose numeric values are missing). -/
inductive OutId where
  | AGMSG_ACTIVE_MAP
  | AGMSG_PLAYER_ENTER
  | AGMSG_REDIRECT_RESPONSE
  | AGMSG_GET_QUEST_RESPONSE
  | XXMSG_INVALID
deriving DecidableEq, Repr

/-- Modelled from the spec: one write into a `MessageOut` (`net/messageout.hpp`
is missing): the message id, `writeShort` (16 bits), `writeLong`, `writeString`,
`writeString` with the fixed token length, and a serialized character. -/
inductive Field where
  | msgId (m : OutId)
  | short (v : Nat)
  | long (v : Int)
  | string (s : String)
  | fixedString (s : String)
  | characterData (d : CharacterData)
deriving DecidableEq, Repr

/-- Modelled from the spec: a `MessageOut` is the sequence of its writes; the
empty sequence has length 0. -/
abbrev MessageOut := List Field

/-- Modelled from the spec: one entry of a ReportStatistics message as the
handler reads it: `readShort` for the map, the thing count and the monster
count, then the player count followed by that many `readLong` values. -/
structure StatisticsEntry where
  mapId : Int
  nbThings : Int
  nbMonsters : Int
  players : List Int
deriving DecidableEq, Repr

/-- Modelled from the spec: a well-formed inbound message (`net/messagein.hpp`
is missing), given by its type and the values the handler reads from it, after
the wire format table of the specification. Every id that is not one of the
eight handled types is `other`. -/
inductive MessageIn where
  | register (address : String) (port : Int) (maps : List Int)
  | playerData (id : Int) (data : CharacterData)
  | redirect (id : Int)
  | playerReconnect (id : Int) (token : String)
  | getQuest (id : Int) (name : String)
  | setQuest (id : Int) (name : String) (value : String)
  | banPlayer (id : Int) (duration : Int)
  | statistics (entries : List StatisticsEntry)
  | other (id : Nat)
deriving DecidableEq, Repr

/-! ## Process state -/

/-- The state the handler works on: `serverHandler->clients` in connection
order, the character store, every message handed to `send` (receiver first) in
order, the number of tokens drawn from the token dispenser, and the calls made
to `AccountClientHandler::prepareReconnect`. -/
structure State where
  clients : List GameServer
  storage : Storage
  sent : List (Nat × MessageOut)
  tokensDrawn : Nat
  reconnects : List (String × Int)
deriving DecidableEq, Repr

/-- Modelled from the spec: `utils::getMagicToken`. The dispenser hands out the
tokens of an arbitrary sequence `gen`, one per call. -/
def getMagicToken (gen : Nat → String) (st : State) : String × State :=
  (gen st.tokensDrawn, { st with tokensDrawn := st.tokensDrawn + 1 })

/-- Modelled from the spec: `NetComputer::send`, a reliable send to one peer. -/
def send (st : State) (peer : Nat) (msg : MessageOut) : State :=
  { st with sent := st.sent ++ [(peer, msg)] }

/-- Modelled from the spec: `AccountClientHandler::prepareReconnect`. -/
def prepareReconnect (st : State) (token : String) (accountID : Int) : State :=
  { st with reconnects := st.reconnects ++ [(token, accountID)] }

/-! ## The handler -/

/-- The static `getGameServerFromMap(int mapId)`: the first connected server
whose table has the key. -/
def getGameServerFromMap : List GameServer → Int → Option GameServer
  | [], _ => none
  | server :: rest, mapId =>
    match ServerStatistics.find server.maps (toUShort mapId) with
    | none => getGameServerFromMap rest mapId
    | some _ => some server

/-- The `GameServerHandler::getGameServerFromMap(mapId, address, port)`: the
result and the values of the two reference arguments afterwards. -/
def GameServerHandler.getGameServerFromMap
    (clients : List GameServer) (mapId : Int) (address : String) (port : Int) :
    Bool × String × Int :=
  match Manaserv.getGameServerFromMap clients mapId with
  | some s => (true, s.address, s.port)
  | none => (false, address, port)

/-- The static `registerGameClient(s, token, ptr)`. -/
def registerGameClient (st : State) (s : GameServer) (token : String) (ptr : Character) : State :=
  send st s.peer
    [Field.msgId OutId.AGMSG_PLAYER_ENTER, Field.fixedString token,
     Field.long ptr.databaseID, Field.string ptr.name,
     Field.characterData (serializeCharacterData ptr)]

/-- A write to the members of the `GameServer` object `comp` points to. -/
def modifyServer (clients : List GameServer) (comp : Nat) (f : GameServer → GameServer) :
    List GameServer :=
  clients.map (fun s => if s.peer = comp then f s else s)

/-- The object `comp` points to. -/
def findServer : List GameServer → Nat → Option GameServer
  | [], _ => none
  | s :: rest, comp => if s.peer = comp then some s else findServer rest comp

/-- The statements `MapStatistics &m = server->maps[id]; m.nbThings = 0;
m.nbMonsters = 0;` of the GAMSG_REGISTER case. -/
def claimMap (id : Int) (server : GameServer) : GameServer :=
  let maps1 := ServerStatistics.subscript server.maps (toUShort id)
  let zeroed := fun (m : MapStatistics) => { m with nbThings := 0, nbMonsters := 0 }
  { server with maps := ServerStatistics.assign maps1 (toUShort id) zeroed }

/-- The message built by `MessageOut outMsg(AGMSG_ACTIVE_MAP); outMsg.writeShort(id);`. -/
def activeMap (id : Int) : MessageOut :=
  [Field.msgId OutId.AGMSG_ACTIVE_MAP, Field.short (toUShort id)]

/-- The `while (msg.getUnreadLength())` loop of the GAMSG_REGISTER case, over
the map ids still unread. -/
def registerMaps (st : State) (comp : Nat) : List Int → State
  | [] => st
  | id :: rest =>
    match getGameServerFromMap st.clients id with
    | some _ => registerMaps st comp rest
    | none =>
      let st1 := send st comp (activeMap id)
      let st2 := { st1 with clients := modifyServer st1.clients comp (claimMap id) }
      registerMaps st2 comp rest

/-- The `std::vector::resize(n)` on a vector of `int`. -/
def resize (v : List Int) (n : Nat) : List Int :=
  v.take n ++ List.replicate (n - v.length) 0

/-- The loop `for (j = 0; j < nb; ++j) m.players[j] = msg.readLong()`, from
index `j` on, over the values still to be read. -/
def readPlayers : List Int → Nat → List Int → List Int
  | players, _, [] => players
  | players, j, p :: ps => readPlayers (players.set j p) (j + 1) ps

/-- The body of the GAMSG_STATISTICS loop after the lookup succeeded. -/
def storeStatistics (e : StatisticsEntry) (m : MapStatistics) : MapStatistics :=
  { nbThings := toUShort e.nbThings
    nbMonsters := toUShort e.nbMonsters
    players := readPlayers (resize m.players e.players.length) 0 e.players }

/-- The writes through `MapStatistics &m = i->second` of the GAMSG_STATISTICS
case, on the sending server. -/
def updateMap (e : StatisticsEntry) (server : GameServer) : GameServer :=
  { server with maps := ServerStatistics.assign server.maps (toUShort e.mapId) (storeStatistics e) }

/-- The `while (msg.getUnreadLength())` loop of the GAMSG_STATISTICS case, over
the entries still unread. -/
def reportStatistics (st : State) (comp : Nat) : List StatisticsEntry → State
  | [] => st
  | e :: rest =>
    match findServer st.clients comp with
    | none => st
    | some server =>
      match ServerStatistics.find server.maps (toUShort e.mapId) with
      | none => st
      | some _ =>
        let st1 := { st with clients := modifyServer st.clients comp (updateMap e) }
        reportStatistics st1 comp rest

/-- The statements `server->address = msg.readString(); server->port =
msg.readShort();` of the GAMSG_REGISTER case; `port` is a `short`. -/
def advertise (address : String) (port : Int) (server : GameServer) : GameServer :=
  { server with address := address, port := toShort port }

/-- The `switch (msg.getId())` of `ServerHandler::processMessage`: the state
after the case ran, and the `MessageOut result` it built. -/
def dispatch (gen : Nat → String) (st : State) (comp : Nat) : MessageIn → State × MessageOut
  | MessageIn.register address port maps =>
    let st1 := { st with clients := modifyServer st.clients comp (advertise address port) }
    (registerMaps st1 comp maps, [])
  | MessageIn.playerData id data =>
    match st.storage.getCharacter id with
    | some ptr =>
      ({ st with storage := (st.storage.updateCharacter (deserializeCharacterData ptr data)).1 }, [])
    | none => (st, [])
  | MessageIn.redirect id =>
    let (magic_token, st1) := getMagicToken gen st
    match st1.storage.getCharacter id with
    | some ptr =>
      match getGameServerFromMap st1.clients ptr.getMapId with
      | some s =>
        (registerGameClient st1 s magic_token ptr,
         [Field.msgId OutId.AGMSG_REDIRECT_RESPONSE, Field.long id,
          Field.fixedString magic_token, Field.string s.address,
          Field.short (toUShort s.port)])
      | none => (st1, [])
    | none => (st1, [])
  | MessageIn.playerReconnect id magic_token =>
    match st.storage.getCharacter id with
    | some ptr => (prepareReconnect st magic_token ptr.accountID, [])
    | none => (st, [])
  | MessageIn.getQuest id name =>
    (st, [Field.msgId OutId.AGMSG_GET_QUEST_RESPONSE, Field.long id, Field.string name,
          Field.string (st.storage.getQuestVar id name)])
  | MessageIn.setQuest id name value =>
    ({ st with storage := st.storage.setQuestVar id name value }, [])
  | MessageIn.banPlayer id duration =>
    ({ st with storage := st.storage.banCharacter id duration }, [])
  | MessageIn.statistics entries => (reportStatistics st comp entries, [])
  | MessageIn.other _ => (st, [Field.msgId OutId.XXMSG_INVALID])

/-- The `ServerHandler::processMessage(comp, msg)`: the case for the message
type, then `if (result.getLength() > 0) comp->send(result)`. -/
def processMessage (gen : Nat → String) (st : State) (comp : Nat) (msg : MessageIn) : State :=
  let r := dispatch gen st comp msg
  if r.2.length > 0 then send r.1 comp r.2 else r.1

/-- The `ServerHandler::computerConnected`, with the bookkeeping of the
connection handler around it. Modelled from the spec: the new connection joins
the connected set (`net/connectionhandler.hpp` is missing). -/
def computerConnected (st : State) (peer : Nat) : State :=
  { st with clients := st.clients ++ [GameServer.new peer] }

/-- The `ServerHandler::computerDisconnected` (`delete comp`), with the
bookkeeping of the connection handler around it. Modelled from the spec: the
connection leaves the connected set. -/
def computerDisconnected (st : State) (comp : Nat) : State :=
  { st with clients := st.clients.filter (fun s => ¬ (s.peer = comp)) }

/-! ## Runs of the server -/

/-- What can happen to the handler: a game server connects, a connected game
server sends a message, a game server disconnects. -/
inductive Event where
  | connect (peer : Nat)
  | message (comp : Nat) (msg : MessageIn)
  | disconnect (comp : Nat)
deriving DecidableEq, Repr

/-- One event applied to the state. -/
def step (gen : Nat → String) (st : State) : Event → State
  | Event.connect peer => computerConnected st peer
  | Event.message comp msg => processMessage gen st comp msg
  | Event.disconnect comp => computerDisconnected st comp

/-- A sequence of events applied in order. -/
def run (gen : Nat → String) (st : State) : List Event → State
  | [] => st
  | e :: es => run gen (step gen st e) es

/-- Whether `comp` is in the connected set. -/
def connected (clients : List GameServer) (comp : Nat) : Bool :=
  clients.any (fun s => s.peer = comp)

/-- An event the handler can receive in a state: a connection is a new object,
distinct from every connected one; messages and disconnects come from
connected servers. -/
def Event.valid (st : State) : Event → Bool
  | Event.connect peer => ! connected st.clients peer
  | Event.message comp _ => connected st.clients comp
  | Event.disconnect comp => connected st.clients comp

/-- A sequence of events each of which the handler can receive when it occurs. -/
def validRun (gen : Nat → String) (st : State) : List Event → Bool
  | [] => true
  | e :: es => e.valid st && validRun gen (step gen st e) es

/-- Whether the table of `s` has the key `m`: the server owns the map. -/
def owns (s : GameServer) (m : Nat) : Bool := (ServerStatistics.find s.maps m).isSome

/-- The connected servers whose table has the key `m`. -/
def owners (clients : List GameServer) (m : Nat) : List GameServer :=
  clients.filter (fun s => owns s m)

/-- The registry invariant: connected servers are distinct objects, and no map
id is a key in the tables of two of them. -/
def Inv (clients : List GameServer) : Prop :=
  clients.Pairwise (fun a b => a.peer ≠ b.peer ∧ ∀ m, ¬ (owns a m = true ∧ owns b m = true))

/-- Every key of every connected server's table, in connection order. -/
def ownedKeys : List GameServer → List Nat
  | [] => []
  | s :: rest => ServerStatistics.keys s.maps ++ ownedKeys rest

/-- The positions of a Register message that get acknowledged, in the words of
the specification: going through the list in order, an id is acknowledged when
its map is owned by no server at that point, that is, when it is neither among
the maps `taken` before the message nor claimed earlier in the same list. -/
def acknowledged (taken : List Nat) : List Int → List Int
  | [] => []
  | id :: rest =>
    if toUShort id ∈ taken then acknowledged taken rest
    else id :: acknowledged (toUShort id :: taken) rest

/-- Several claims in a row on one server. -/
def claimAll (ids : List Int) (s : GameServer) : GameServer :=
  ids.foldl (fun t id => claimMap id t) s

/-- One row per connected server, in connection order: the connection and what
its table stores for map `m`. -/
def statsOf (clients : List GameServer) (m : Nat) : List (Nat × Option MapStatistics) :=
  clients.map (fun s => (s.peer, ServerStatistics.find s.maps m))

/-- Applying statistics entries to the tables of server `comp`, in the words
of the specification: each entry in order overwrites the stored statistics of
its map. -/
def applyEntries (st : State) (comp : Nat) : List StatisticsEntry → State
  | [] => st
  | e :: rest =>
    applyEntries { st with clients := modifyServer st.clients comp (updateMap e) } comp rest

/-- Several statistics entries written in a row to the table of one server. -/
def updateAll (entries : List StatisticsEntry) (s : GameServer) : GameServer :=
  entries.foldl (fun t e => updateMap e t) s

/-- A character record with database id 7, located on map 9. -/
def exampleCharacter : Character :=
  { databaseID := 7, accountID := 1, name := "bob", data := { mapId := 9, attributes := [] } }

/-- A character store with one record, on map 9. -/
def exampleStorage : Storage :=
  { characters := [exampleCharacter], questVars := [], bans := [], rejectsWrites := false }

/-- A state with no connected game servers. -/
def exampleState : State :=
  { clients := [], storage := exampleStorage, sent := [], tokensDrawn := 0, reconnects := [] }

/-- A token dispenser for the examples. -/
def exampleGen : Nat → String := fun _ => "token"

/-- Servers 10 (A) and 20 (B) connect; A registers maps 1 and 2, then B
registers maps 2 and 3. -/
def exampleEvents : List Event :=
  [Event.connect 10, Event.connect 20,
   Event.message 10 (MessageIn.register "a.example" 9601 [1, 2]),
   Event.message 20 (MessageIn.register "b.example" 9602 [2, 3])]

/-- The state after one server connected and registered map 1, advertising
port 40000. -/
def exampleHighPort : State :=
  run exampleGen exampleState
    [Event.connect 10, Event.message 10 (MessageIn.register "a.example" 40000 [1])]

/-- The state after both servers connected and A registered maps 1 and 2. -/
def exampleAfterA : State := run exampleGen exampleState (exampleEvents.take 3)

/-- The state after `exampleEvents`. -/
def exampleRegistered : State := run exampleGen exampleState exampleEvents

/-- A character record with database id 8, located on map 3. -/
def exampleTraveller : Character :=
  { databaseID := 8, accountID := 2, name := "eve", data := { mapId := 3, attributes := [4, 2] } }

/-- The state after `exampleEvents`, with a second character, located on map 3
(registered by B), in the store. -/
def exampleWithTraveller : State :=
  { exampleRegistered with
    storage := { exampleStorage with characters := [exampleCharacter, exampleTraveller] } }

/-- The bookkeeping of which connections have had a Register message processed
since they connected, for one event: a new connection has not registered, a
Register message marks its sender. -/
def noteRegistration (reg : List Nat) : Event → List Nat
  | Event.connect peer => reg.filter (fun p => ¬ (p = peer))
  | Event.message comp (MessageIn.register _ _ _) => comp :: reg
  | Event.message _ _ => reg
  | Event.disconnect _ => reg

/-- The connections that have had a Register message processed since they
connected, after a sequence of events. -/
def registeredPeers (reg : List Nat) : List Event → List Nat
  | [] => reg
  | e :: es => registeredPeers (noteRegistration reg e) es

/-- Every connected server outside `reg` is as its constructor left it: empty
address, port 0, no maps. -/
def Blank (clients : List GameServer) (reg : List Nat) : Prop :=
  ∀ s ∈ clients, s.peer ∉ reg → s = GameServer.new s.peer

/-- Both servers connect; A registers, pushes data, asks for a redirect and
reports statistics, and B sends only messages other than Register. -/
def exampleBusyEvents : List Event :=
  [Event.connect 10, Event.connect 20,
   Event.message 10 (MessageIn.register "a.example" 9601 [1, 2]),
   Event.message 20 (MessageIn.statistics [⟨1, 4, 2, [7]⟩]),
   Event.message 20 (MessageIn.redirect 7),
   Event.message 20 (MessageIn.setQuest 7 "quest" "done"),
   Event.message 10 (MessageIn.statistics [⟨1, 3, 1, [7]⟩]),
   Event.message 20 (MessageIn.other 99)]

/-- The `GameServerHandler::registerClient(token, ptr)`: the owner lookup, then
`assert(s)`, then `registerGameClient`. The result `none` stands for the failed
assertion, which aborts the process; the function completes only with `some`. -/
def GameServerHandler.registerClient (st : State) (token : String) (ptr : Character) :
    Option State :=
  match Manaserv.getGameServerFromMap st.clients ptr.getMapId with
  | none => none
  | some s => some (registerGameClient st s token ptr)

/-- Modelled from the spec: a position (`point.h` is missing), two coordinates. -/
structure Point where
  x : Nat
  y : Nat
deriving DecidableEq, Repr

/-- The `struct RawStatistics`: the `unsigned short stats[NB_RSTAT]`. -/
structure RawStatistics where
  stats : List Nat
deriving DecidableEq, Repr

/-- The `struct InventoryItem`. -/
structure InventoryItem where
  itemId : Nat
  amount : Nat
deriving DecidableEq, Repr

/-- The `struct Possessions`. -/
structure Possessions where
  equipment : List Nat
  inventory : List InventoryItem
deriving DecidableEq, Repr

/-- The private members of `class PlayerData`; `mMapId` is an `unsigned short`. -/
structure PlayerData where
  mAccountID : Int
  mDatabaseID : Int
  mName : String
  mGender : Nat
  mHairStyle : Nat
  mHairColor : Nat
  mLevel : Nat
  mMapId : Nat
  mPos : Point
  mMoney : Nat
  mRawStats : RawStatistics
  mPossessions : Possessions
deriving DecidableEq, Repr

/-- The `int PlayerData::getMap() const`. -/
def PlayerData.getMap (p : PlayerData) : Int := p.mMapId

/-- The `void PlayerData::setMap(int mapId)`: the assignment narrows to `unsigned short`. -/
def PlayerData.setMap (p : PlayerData) (mapId : Int) : PlayerData :=
  { p with mMapId := toUShort mapId }

/-- The `int PlayerData::getAccountID() const`. -/
def PlayerData.getAccountID (p : PlayerData) : Int := p.mAccountID

/-- The `int PlayerData::getDatabaseID() const`. -/
def PlayerData.getDatabaseID (p : PlayerData) : Int := p.mDatabaseID

/-- The `std::string const &PlayerData::getName() const`. -/
def PlayerData.getName (p : PlayerData) : String := p.mName

/-- The `int PlayerData::getLevel() const`. -/
def PlayerData.getLevel (p : PlayerData) : Int := p.mLevel

/-- The `int PlayerData::getMoney() const`. -/
def PlayerData.getMoney (p : PlayerData) : Int := p.mMoney

/-- The `Point const &PlayerData::getPos() const`. -/
def PlayerData.getPos (p : PlayerData) : Point := p.mPos

/-- A player record on map 1. -/
def examplePlayer : PlayerData :=
  { mAccountID := 1, mDatabaseID := 7, mName := "bob", mGender := 0, mHairStyle := 1,
    mHairColor := 2, mLevel := 3, mMapId := 1, mPos := { x := 10, y := 20 }, mMoney := 100,
    mRawStats := { stats := [1, 2, 3, 4, 5, 6] },
    mPossessions := { equipment := [], inventory := [] } }

/-- Modelled from the spec: a HandoffToken, the pending binding of a token
string to a character and its account (the issuing timestamp is left out). -/
structure HandoffToken where
  token : String
  characterID : Int
  accountID : Int
deriving DecidableEq, Repr

/-- Modelled from the spec: the HandoffBroker, whose source is missing: the
pending bindings and the number of tokens drawn from the token dispenser. -/
structure HandoffBroker where
  pending : List HandoffToken
  tokensDrawn : Nat
deriving DecidableEq, Repr

/-- Modelled from the spec: `issue(accountID, characterID)` generates a token
via the dispenser, records the pending binding and returns the token; a binding
already recorded for the same token is overwritten. -/
def HandoffBroker.issue (gen : Nat → String) (b : HandoffBroker) (accountID characterID : Int) :
    String × HandoffBroker :=
  let t := gen b.tokensDrawn
  (t, { pending := { token := t, characterID := characterID, accountID := accountID } ::
          b.pending.filter (fun e => ¬ (e.token = t))
        tokensDrawn := b.tokensDrawn + 1 })

/-- Modelled from the spec: `redeem(token)` looks up and removes the binding
and returns the bound account id, or not-found (`none`) when the token is
unknown or already redeemed. -/
def HandoffBroker.redeem (b : HandoffBroker) (token : String) : Option Int × HandoffBroker :=
  match b.pending.find? (fun e => e.token = token) with
  | some e => (some e.accountID, { b with pending := b.pending.filter (fun x => ¬ (x.token = token)) })
  | none => (none, b)

/-- Modelled from the spec: one call to the broker. -/
inductive BrokerOp where
  | issue (accountID : Int) (characterID : Int)
  | redeem (token : String)
deriving DecidableEq, Repr

/-- Modelled from the spec: the broker after one call. -/
def HandoffBroker.step (gen : Nat → String) (b : HandoffBroker) : BrokerOp → HandoffBroker
  | BrokerOp.issue accountID characterID => (b.issue gen accountID characterID).2
  | BrokerOp.redeem token => (b.redeem token).2

/-- Modelled from the spec: the broker after a sequence of calls. -/
def HandoffBroker.run (gen : Nat → String) (b : HandoffBroker) : List BrokerOp → HandoffBroker
  | [] => b
  | op :: ops => HandoffBroker.run gen (b.step gen op) ops

/-- A token dispenser that never repeats a token, for the examples. -/
def exampleCounterGen : Nat → String := fun n => String.mk (List.replicate (n + 1) 'x')

/-- A broker with nothing pending. -/
def exampleBroker : HandoffBroker := { pending := [], tokensDrawn := 0 }

/-- Modelled from the spec: the text `std::ostream::operator<<` writes for an
integer value, its decimal representation. -/
def decimal (v : Int) : String := toString v

/-- The innermost loop of `dumpStatistics`: one character element per stored
player id, appended to the stream `os`. -/
def dumpPlayers (os : String) : List Int → String
  | [] => os
  | k :: rest => dumpPlayers (os ++ "<character id=\"" ++ decimal k ++ "\"/>\n") rest

/-- The loop of `dumpStatistics` over `server->maps`, from `maps.begin()` on. -/
def dumpMaps (os : String) : ServerStatistics → String
  | [] => os
  | (id, m) :: rest =>
    let os1 := os ++ "<map id=\"" ++ decimal id ++ "\" nb_things=\"" ++ decimal m.nbThings
      ++ "\" nb_monsters=\"" ++ decimal m.nbMonsters ++ "\">\n"
    let os2 := dumpPlayers os1 m.players
    dumpMaps (os2 ++ "</map>\n") rest

/-- The `GameServerHandler::dumpStatistics(std::ostream &os)`: the stream after
the call. The function reads the registry through const iterators only. -/
def GameServerHandler.dumpStatistics (os : String) : List GameServer → String
  | [] => os
  | server :: rest =>
    if server.port = 0 then GameServerHandler.dumpStatistics os rest
    else
      let os1 := os ++ "<gameserver address=\"" ++ server.address ++ "\" port=\""
        ++ decimal server.port ++ "\">\n"
      let os2 := dumpMaps os1 server.maps
      GameServerHandler.dumpStatistics (os2 ++ "</gameserver>\n") rest

/-- Texts written one after the other. -/
def concatAll : List String → String
  | [] => ""
  | a :: rest => a ++ concatAll rest

/-- The character element of a player id, in the words of the specification. -/
def characterElement (k : Int) : String := "<character id=\"" ++ decimal k ++ "\"/>\n"

/-- The map element of an owned map, in the words of the specification: the
map id, nbThings and nbMonsters, then one character element per stored player
id in stored order. -/
def mapElement (entry : Nat × MapStatistics) : String :=
  "<map id=\"" ++ decimal entry.1 ++ "\" nb_things=\"" ++ decimal entry.2.nbThings
    ++ "\" nb_monsters=\"" ++ decimal entry.2.nbMonsters ++ "\">\n"
    ++ concatAll (entry.2.players.map characterElement) ++ "</map>\n"

/-- The gameserver element of a connected server, in the words of the
specification: address and port, then one map element per owned map. -/
def gameserverElement (s : GameServer) : String :=
  "<gameserver address=\"" ++ s.address ++ "\" port=\"" ++ decimal s.port ++ "\">\n"
    ++ concatAll (s.maps.map mapElement) ++ "</gameserver>\n"

/-- The dump in the words of the specification: one gameserver element for each
connected server whose port is not 0, in connection order. -/
def expectedDump (clients : List GameServer) : String :=
  concatAll ((clients.filter (fun s => ¬ (s.port = 0))).map gameserverElement)

/-- The keys of a table in strictly ascending order, as a `std::map` iterates. -/
def Ascending (maps : ServerStatistics) : Prop :=
  (ServerStatistics.keys maps).Pairwise (fun a b => a < b)

/-- The state after B, which owns map 3, sent a second Register message with a
new address, port 40000 and map 3 again, so that every claim in it fails. -/
def exampleReregistered : State :=
  processMessage exampleGen exampleWithTraveller 20 (MessageIn.register "new.example" 40000 [3])

/-- Modelled from the spec: the operations of the message codec on an inbound
message of type `C` (`net/messagein.hpp` is missing), taken as a parameter:
`getUnreadLength` in bytes, and `readShort` and `readLong`, each giving the
value read and the message afterwards. Nothing is assumed about them here, so a
read that does not advance the message is a codec like any other. -/
structure Codec (C : Type) where
  getUnreadLength : C → Int
  readShort : C → Int × C
  readLong : C → Int × C

/-- How a loop of the handler ends: it finished in a state; or the fuel, the
number of times the body may run, was used up with the loop condition still
true; or `std::vector::resize` was called with a negative count, which converts
to a huge size and throws. -/
inductive LoopResult where
  | finished (st : State)
  | outOfFuel
  | lengthError
deriving DecidableEq, Repr

/-- The `while (msg.getUnreadLength())` loop of the GAMSG_REGISTER case, run on
the message itself: the condition is the unread length being non-zero, the body
reads one id with `readShort`. -/
def registerLoop {C : Type} (codec : Codec C) (comp : Nat) : Nat → State → C → LoopResult
  | 0, st, msg =>
    if codec.getUnreadLength msg = 0 then LoopResult.finished st else LoopResult.outOfFuel
  | fuel + 1, st, msg =>
    if codec.getUnreadLength msg = 0 then LoopResult.finished st
    else
      let r := codec.readShort msg
      match getGameServerFromMap st.clients r.1 with
      | some _ => registerLoop codec comp fuel st r.2
      | none =>
        let st1 := send st comp (activeMap r.1)
        let st2 := { st1 with clients := modifyServer st1.clients comp (claimMap r.1) }
        registerLoop codec comp fuel st2 r.2

/-- The values of `n` successive `readShort` calls. -/
def readShorts {C : Type} (codec : Codec C) : Nat → C → List Int
  | 0, _ => []
  | n + 1, msg => (codec.readShort msg).1 :: readShorts codec n (codec.readShort msg).2

/-- The values of `n` successive `readLong` calls, and the message afterwards. -/
def readLongs {C : Type} (codec : Codec C) : Nat → C → List Int × C
  | 0, msg => ([], msg)
  | n + 1, msg =>
    let r := codec.readLong msg
    let rest := readLongs codec n r.2
    (r.1 :: rest.1, rest.2)

/-- The `while (msg.getUnreadLength())` loop of the GAMSG_STATISTICS case, run
on the message itself: `readShort` for the map id, the lookup and `break`, then
`readShort` for the two counts and for `nb`, `resize(nb)` and `nb` calls of
`readLong`, whose values `updateMap` stores at the indices 0 to nb - 1. -/
def statisticsLoop {C : Type} (codec : Codec C) (comp : Nat) : Nat → State → C → LoopResult
  | 0, st, msg =>
    if codec.getUnreadLength msg = 0 then LoopResult.finished st else LoopResult.outOfFuel
  | fuel + 1, st, msg =>
    if codec.getUnreadLength msg = 0 then LoopResult.finished st
    else
      let r0 := codec.readShort msg
      match findServer st.clients comp with
      | none => LoopResult.finished st
      | some server =>
        match ServerStatistics.find server.maps (toUShort r0.1) with
        | none => LoopResult.finished st
        | some _ =>
          let r1 := codec.readShort r0.2
          let r2 := codec.readShort r1.2
          let r3 := codec.readShort r2.2
          if r3.1 < 0 then LoopResult.lengthError
          else
            let ps := readLongs codec r3.1.toNat r3.2
            let e : StatisticsEntry :=
              { mapId := r0.1, nbThings := r1.1, nbMonsters := r2.1, players := ps.1 }
            let st1 := { st with clients := modifyServer st.clients comp (updateMap e) }
            statisticsLoop codec comp fuel st1 ps.2

/-- A Statistics message made of complete entries, in the words of the
specification: the unread part of `msg` is exactly the given entries, each one
a map id, a thing count, a monster count and a player count k as 16-bit fields
followed by k player ids as 32-bit fields, and nothing is left after the last. -/
def Complete {C : Type} (codec : Codec C) : List StatisticsEntry → C → Prop
  | [], msg => codec.getUnreadLength msg = 0
  | e :: rest, msg =>
    let r0 := codec.readShort msg
    let r1 := codec.readShort r0.2
    let r2 := codec.readShort r1.2
    let r3 := codec.readShort r2.2
    let ps := readLongs codec e.players.length r3.2
    codec.getUnreadLength msg ≠ 0 ∧ r0.1 = e.mapId ∧ r1.1 = e.nbThings ∧
      r2.1 = e.nbMonsters ∧ r3.1 = e.players.length ∧ ps.1 = e.players ∧
      Complete codec rest ps.2

/-- A message buffer with a read position, for the examples. -/
structure ByteCursor where
  data : List Nat
  pos : Nat
deriving DecidableEq, Repr

/-- The unsigned value of `width` bytes of a buffer from position `pos` on, most
significant byte first. -/
def bytesValue (data : List Nat) (pos : Nat) : Nat → Nat
  | 0 => 0
  | width + 1 => 256 * bytesValue data pos width + data.getD (pos + width) 0

/-- A codec for the examples: fields are big-endian, a read past the end of the
buffer gives -1, and every read advances the position by the width of the
field, also past the end. -/
def exampleCodec : Codec ByteCursor :=
  { getUnreadLength := fun c => (c.data.length : Int) - (c.pos : Int)
    readShort := fun c =>
      (if c.pos + 2 ≤ c.data.length then (bytesValue c.data c.pos 2 : Int) else -1,
       { c with pos := c.pos + 2 })
    readLong := fun c =>
      (if c.pos + 4 ≤ c.data.length then (bytesValue c.data c.pos 4 : Int) else -1,
       { c with pos := c.pos + 4 }) }

/-- The payload of a Register message after address and port: maps 2, 3, 3. -/
def exampleRegisterPayload : ByteCursor := { data := [0, 2, 0, 3, 0, 3], pos := 0 }

/-- A Statistics message: map 1 with 4 things, 2 monsters and players 7 and 8,
then map 3 with no player, then map 2 with player 9. -/
def exampleStatisticsPayload : ByteCursor :=
  { data := [0, 1, 0, 4, 0, 2, 0, 2, 0, 0, 0, 7, 0, 0, 0, 8,
             0, 3, 0, 1, 0, 1, 0, 0,
             0, 2, 0, 5, 0, 5, 0, 1, 0, 0, 0, 9]
    pos := 0 }

/-- The entries of `exampleStatisticsPayload`. -/
def exampleStatisticsEntries : List StatisticsEntry :=
  [⟨1, 4, 2, [7, 8]⟩, ⟨3, 1, 1, []⟩, ⟨2, 5, 5, [9]⟩]

/-! ## The statistics table -/


theorem ServerStatistics.find_assign (maps : ServerStatistics) (key : Nat)
    (f : MapStatistics → MapStatistics) (m : Nat) :
    ServerStatistics.find (ServerStatistics.assign maps key f) m =
      if m = key then (ServerStatistics.find maps key).map f else ServerStatistics.find maps m := by
  induction maps with
  | nil => simp [ServerStatistics.assign, ServerStatistics.find]
  | cons kv rest ih =>
    obtain ⟨k, v⟩ := kv
    by_cases hk : k = key
    · subst hk
      by_cases hm : m = k
      · subst hm; simp [ServerStatistics.assign, ServerStatistics.find]
      · have hm2 : ¬ k = m := fun h => hm h.symm
        simp [ServerStatistics.assign, ServerStatistics.find, hm, hm2]
    · by_cases hm : m = key
      · subst hm
        simp [ServerStatistics.assign, ServerStatistics.find, hk, ih]
      · simp only [ServerStatistics.assign, hk, if_false, ServerStatistics.find, ih, hm]

theorem ServerStatistics.find_assign_isSome (maps : ServerStatistics) (key : Nat)
    (f : MapStatistics → MapStatistics) (m : Nat) :
    (ServerStatistics.find (ServerStatistics.assign maps key f) m).isSome =
      (ServerStatistics.find maps m).isSome := by
  rw [ServerStatistics.find_assign]
  by_cases hm : m = key
  · subst hm; cases h : ServerStatistics.find maps m <;> simp
  · simp [hm]

theorem ServerStatistics.find_subscript_ne (maps : ServerStatistics) (key m : Nat) (hm : m ≠ key) :
    ServerStatistics.find (ServerStatistics.subscript maps key) m = ServerStatistics.find maps m := by
  induction maps with
  | nil =>
    have : ¬ key = m := fun h => hm h.symm
    simp [ServerStatistics.subscript, ServerStatistics.find, this]
  | cons kv rest ih =>
    obtain ⟨k, v⟩ := kv
    have hkm : ¬ key = m := fun h => hm h.symm
    by_cases h1 : key < k
    · simp [ServerStatistics.subscript, h1, ServerStatistics.find, hkm]
    · by_cases h2 : k = key
      · simp [ServerStatistics.subscript, h1, h2]
      · simp [ServerStatistics.subscript, h1, h2, ServerStatistics.find, ih]

theorem ServerStatistics.find_subscript_absent (maps : ServerStatistics) (key : Nat)
    (h : ServerStatistics.find maps key = none) :
    ServerStatistics.find (ServerStatistics.subscript maps key) key = some MapStatistics.zero := by
  induction maps with
  | nil => simp [ServerStatistics.subscript, ServerStatistics.find]
  | cons kv rest ih =>
    obtain ⟨k, v⟩ := kv
    by_cases h2 : k = key
    · simp [ServerStatistics.find, h2] at h
    · have h3 : ServerStatistics.find rest key = none := by
        simpa [ServerStatistics.find, h2] using h
      by_cases h1 : key < k
      · simp [ServerStatistics.subscript, h1, ServerStatistics.find]
      · simp [ServerStatistics.subscript, h1, h2, ServerStatistics.find, ih h3]

/-! ## Ownership under the writes of the handler -/

theorem owns_advertise (address : String) (port : Int) (s : GameServer) (m : Nat) :
    owns (advertise address port s) m = owns s m := rfl

theorem owns_updateMap (e : StatisticsEntry) (s : GameServer) (m : Nat) :
    owns (updateMap e s) m = owns s m := by
  simp [owns, updateMap, ServerStatistics.find_assign_isSome]

theorem owns_claimMap_self (id : Int) (s : GameServer) :
    owns (claimMap id s) (toUShort id) = true := by
  simp only [owns, claimMap, ServerStatistics.find_assign_isSome]
  cases h : ServerStatistics.find s.maps (toUShort id) with
  | none => simp [ServerStatistics.find_subscript_absent _ _ h]
  | some v =>
    have hv : ∀ maps : ServerStatistics, ∀ key : Nat,
        (ServerStatistics.find maps key).isSome = true →
        (ServerStatistics.find (ServerStatistics.subscript maps key) key).isSome = true := by
      intro maps key
      induction maps with
      | nil => simp [ServerStatistics.find]
      | cons kv rest ih =>
        obtain ⟨k, w⟩ := kv
        by_cases h1 : key < k
        · simp [ServerStatistics.subscript, h1, ServerStatistics.find]
        · by_cases h2 : k = key
          · simp [ServerStatistics.subscript, h1, h2, ServerStatistics.find]
          · simpa [ServerStatistics.subscript, h1, h2, ServerStatistics.find] using ih
    exact hv _ _ (by simp [h])

theorem owns_claimMap_ne (id : Int) (s : GameServer) (m : Nat) (hm : m ≠ toUShort id) :
    owns (claimMap id s) m = owns s m := by
  simp only [owns, claimMap, ServerStatistics.find_assign_isSome,
    ServerStatistics.find_subscript_ne _ _ _ hm]

theorem getGameServerFromMap_eq_none (clients : List GameServer) (mapId : Int) :
    getGameServerFromMap clients mapId = none ↔
      ∀ s ∈ clients, owns s (toUShort mapId) = false := by
  induction clients with
  | nil => simp [getGameServerFromMap]
  | cons s rest ih =>
    cases h : ServerStatistics.find s.maps (toUShort mapId) with
    | none => simp [getGameServerFromMap, h, ih, owns]
    | some v => simp [getGameServerFromMap, h, owns]

theorem getGameServerFromMap_some (clients : List GameServer) (mapId : Int) (s : GameServer)
    (h : getGameServerFromMap clients mapId = some s) :
    s ∈ clients ∧ owns s (toUShort mapId) = true := by
  induction clients with
  | nil => simp [getGameServerFromMap] at h
  | cons c rest ih =>
    cases hc : ServerStatistics.find c.maps (toUShort mapId) with
    | none =>
      simp only [getGameServerFromMap, hc] at h
      exact ⟨List.mem_cons_of_mem _ (ih h).1, (ih h).2⟩
    | some v =>
      simp only [getGameServerFromMap, hc, Option.some.injEq] at h
      subst h
      exact ⟨List.mem_cons_self _ _, by simp [owns, hc]⟩

/-! ## The registry invariant -/

theorem Inv_nil : Inv [] := List.Pairwise.nil

theorem Inv_modifyServer_same (clients : List GameServer) (comp : Nat) (f : GameServer → GameServer)
    (hpeer : ∀ s, (f s).peer = s.peer) (howns : ∀ s m, owns (f s) m = owns s m)
    (h : Inv clients) : Inv (modifyServer clients comp f) := by
  unfold Inv modifyServer at *
  rw [List.pairwise_map]
  refine h.imp ?_
  intro a b hab
  have ha : ∀ s : GameServer, (if s.peer = comp then f s else s).peer = s.peer := by
    intro s; split <;> simp [hpeer]
  have hb : ∀ (s : GameServer) (m : Nat), owns (if s.peer = comp then f s else s) m = owns s m := by
    intro s m; split <;> simp [howns]
  simp only [ha, hb]
  exact hab

theorem Inv_modifyServer_claim (clients : List GameServer) (comp : Nat) (id : Int)
    (hfree : getGameServerFromMap clients id = none)
    (h : Inv clients) : Inv (modifyServer clients comp (claimMap id)) := by
  rw [getGameServerFromMap_eq_none] at hfree
  unfold Inv modifyServer at *
  rw [List.pairwise_map]
  have h2 : clients.Pairwise (fun a b =>
      owns a (toUShort id) = false ∧ owns b (toUShort id) = false) :=
    List.pairwise_of_forall_mem_list (fun a ha b hb => ⟨hfree a ha, hfree b hb⟩)
  refine (h.and h2).imp ?_
  rintro a b ⟨⟨hne, hdis⟩, hfa, hfb⟩
  have hpeer : ∀ s : GameServer, (if s.peer = comp then claimMap id s else s).peer = s.peer := by
    intro s; split <;> simp [claimMap]
  refine ⟨by simpa only [hpeer] using hne, ?_⟩
  intro m
  by_cases ha : a.peer = comp
  · have hb : ¬ b.peer = comp := fun hb => hne (ha.trans hb.symm)
    simp only [ha, hb, if_true, if_false]
    by_cases hm : m = toUShort id
    · subst hm; simp [hfb]
    · rw [owns_claimMap_ne _ _ _ hm]; exact hdis m
  · by_cases hb : b.peer = comp
    · simp only [ha, hb, if_true, if_false]
      by_cases hm : m = toUShort id
      · subst hm; simp [hfa]
      · rw [owns_claimMap_ne _ _ _ hm]; exact hdis m
    · simp only [ha, hb, if_false]; exact hdis m

theorem registerMaps_Inv (maps : List Int) (st : State) (comp : Nat) (h : Inv st.clients) :
    Inv (registerMaps st comp maps).clients := by
  induction maps generalizing st with
  | nil => exact h
  | cons id rest ih =>
    cases hg : getGameServerFromMap st.clients id with
    | some s => simp only [registerMaps, hg]; exact ih st h
    | none =>
      simp only [registerMaps, hg]
      apply ih
      exact Inv_modifyServer_claim st.clients comp id hg h

theorem reportStatistics_Inv (entries : List StatisticsEntry) (st : State) (comp : Nat)
    (h : Inv st.clients) : Inv (reportStatistics st comp entries).clients := by
  induction entries generalizing st with
  | nil => exact h
  | cons e rest ih =>
    cases hs : findServer st.clients comp with
    | none => simp only [reportStatistics, hs]; exact h
    | some server =>
      cases hf : ServerStatistics.find server.maps (toUShort e.mapId) with
      | none => simp only [reportStatistics, hs, hf]; exact h
      | some v =>
        simp only [reportStatistics, hs, hf]
        apply ih
        exact Inv_modifyServer_same st.clients comp (updateMap e) (fun _ => rfl)
          (owns_updateMap e) h

theorem processMessage_clients (gen : Nat → String) (st : State) (comp : Nat) (msg : MessageIn) :
    (processMessage gen st comp msg).clients = (dispatch gen st comp msg).1.clients := by
  unfold processMessage
  simp only []
  split <;> rfl

theorem dispatch_Inv (gen : Nat → String) (st : State) (comp : Nat) (msg : MessageIn)
    (h : Inv st.clients) : Inv (dispatch gen st comp msg).1.clients := by
  cases msg with
  | register address port maps =>
    simp only [dispatch]
    apply registerMaps_Inv
    exact Inv_modifyServer_same st.clients comp (advertise address port) (fun _ => rfl)
      (owns_advertise address port) h
  | playerData id data =>
    simp only [dispatch]
    split <;> exact h
  | redirect id =>
    simp only [dispatch, getMagicToken]
    split
    · split <;> exact h
    · exact h
  | playerReconnect id token =>
    simp only [dispatch]
    split <;> exact h
  | getQuest id name => exact h
  | setQuest id name value => exact h
  | banPlayer id duration => exact h
  | statistics entries => exact reportStatistics_Inv entries st comp h
  | other id => exact h

theorem processMessage_Inv (gen : Nat → String) (st : State) (comp : Nat) (msg : MessageIn)
    (h : Inv st.clients) : Inv (processMessage gen st comp msg).clients := by
  rw [processMessage_clients]; exact dispatch_Inv gen st comp msg h

theorem connected_eq_false (clients : List GameServer) (peer : Nat) :
    connected clients peer = false ↔ ∀ s ∈ clients, s.peer ≠ peer := by
  simp [connected]

theorem computerConnected_Inv (st : State) (peer : Nat)
    (hnew : connected st.clients peer = false) (h : Inv st.clients) :
    Inv (computerConnected st peer).clients := by
  rw [connected_eq_false] at hnew
  unfold Inv computerConnected at *
  simp only [List.pairwise_append]
  refine ⟨h, List.pairwise_singleton _ _, ?_⟩
  intro a ha b hb
  simp only [List.mem_singleton] at hb
  subst hb
  refine ⟨hnew a ha, ?_⟩
  intro m
  simp [owns, GameServer.new, ServerStatistics.find]

theorem computerDisconnected_Inv (st : State) (comp : Nat) (h : Inv st.clients) :
    Inv (computerDisconnected st comp).clients := by
  unfold Inv computerDisconnected at *
  exact h.filter _

theorem step_Inv (gen : Nat → String) (st : State) (e : Event)
    (hv : e.valid st = true) (h : Inv st.clients) : Inv (step gen st e).clients := by
  cases e with
  | connect peer =>
    apply computerConnected_Inv st peer _ h
    simpa [Event.valid] using hv
  | message comp msg => exact processMessage_Inv gen st comp msg h
  | disconnect comp => exact computerDisconnected_Inv st comp h

theorem run_Inv (gen : Nat → String) (events : List Event) (st : State)
    (hv : validRun gen st events = true) (h : Inv st.clients) :
    Inv (run gen st events).clients := by
  induction events generalizing st with
  | nil => exact h
  | cons e es ih =>
    simp only [validRun, Bool.and_eq_true] at hv
    exact ih (step gen st e) hv.2 (step_Inv gen st e hv.1 h)

theorem owners_length_le_one (clients : List GameServer) (h : Inv clients) (m : Nat) :
    (owners clients m).length ≤ 1 := by
  induction clients with
  | nil => simp [owners]
  | cons s rest ih =>
    unfold Inv at h
    rw [List.pairwise_cons] at h
    by_cases hs : owns s m = true
    · have hrest : owners rest m = [] := by
        unfold owners
        rw [List.filter_eq_nil_iff]
        intro b hb hbm
        exact (h.1 b hb).2 m ⟨hs, hbm⟩
      have : owners (s :: rest) m = [s] := by
        unfold owners at hrest ⊢
        simp [List.filter_cons, hs, hrest]
      simp [this]
    · have : owners (s :: rest) m = owners rest m := by
        unfold owners
        simp [List.filter_cons, hs]
      rw [this]
      exact ih h.2

/-! ## At most one owner per map -/

/-- C1: starting from a registry with no connected game servers, after every
finite sequence of connects, processMessage calls (any message type, from any
connected server) and disconnects, every map id is a key of the maps table of
at most one connected GameServer. -/
theorem map_owned_by_at_most_one_server (gen : Nat → String) (st0 : State) (events : List Event)
    (h0 : st0.clients = []) (hv : validRun gen st0 events = true) (m : Nat) :
    (owners (run gen st0 events).clients m).length ≤ 1 :=
  owners_length_le_one _ (run_Inv gen events st0 hv (by rw [h0]; exact Inv_nil)) m

/-- Witness for C1: servers A and B register overlapping maps; map 2 has at
most one owner afterwards. -/
theorem map_owned_by_at_most_one_server_witness :
    exampleState.clients = [] ∧ validRun exampleGen exampleState exampleEvents = true ∧
      (owners (run exampleGen exampleState exampleEvents).clients 2).length ≤ 1 :=
  ⟨rfl, by decide,
    map_owned_by_at_most_one_server exampleGen exampleState exampleEvents rfl (by decide) 2⟩

/-! ## What a Register message does to the state -/

theorem ServerStatistics.mem_keys (maps : ServerStatistics) (m : Nat) :
    m ∈ ServerStatistics.keys maps ↔ (ServerStatistics.find maps m).isSome = true := by
  induction maps with
  | nil => simp [ServerStatistics.keys, ServerStatistics.find]
  | cons kv rest ih =>
    obtain ⟨k, v⟩ := kv
    by_cases hk : k = m
    · simp [ServerStatistics.keys, ServerStatistics.find, hk]
    · have hk2 : ¬ m = k := fun h => hk h.symm
      simp only [ServerStatistics.keys] at ih
      simp [ServerStatistics.keys, ServerStatistics.find, hk, hk2, ih]

theorem mem_ownedKeys (clients : List GameServer) (m : Nat) :
    m ∈ ownedKeys clients ↔ ∃ s ∈ clients, owns s m = true := by
  induction clients with
  | nil => simp [ownedKeys]
  | cons s rest ih =>
    simp [ownedKeys, ih, ServerStatistics.mem_keys, owns]

theorem modifyServer_modifyServer (clients : List GameServer) (comp : Nat)
    (f g : GameServer → GameServer) (hf : ∀ s, (f s).peer = s.peer) :
    modifyServer (modifyServer clients comp f) comp g =
      modifyServer clients comp (fun s => g (f s)) := by
  unfold modifyServer
  rw [List.map_map]
  apply List.map_congr_left
  intro s _
  by_cases h : s.peer = comp
  · simp [h, hf]
  · simp [h]

theorem connected_modifyServer (clients : List GameServer) (comp c : Nat)
    (f : GameServer → GameServer) (hf : ∀ s, (f s).peer = s.peer) :
    connected (modifyServer clients comp f) c = connected clients c := by
  unfold connected modifyServer
  rw [List.any_map]
  congr 1
  funext s
  by_cases h : s.peer = comp
  · simp [h, hf]
  · simp [h]

theorem claimMap_peer (id : Int) (s : GameServer) : (claimMap id s).peer = s.peer := rfl

theorem claimAll_peer (ids : List Int) (s : GameServer) : (claimAll ids s).peer = s.peer := by
  induction ids generalizing s with
  | nil => rfl
  | cons id rest ih =>
    simp only [claimAll, List.foldl_cons] at ih ⊢
    rw [ih]; rfl

theorem owned_after_claim (clients : List GameServer) (comp : Nat) (id : Int) (m : Nat)
    (hc : connected clients comp = true) :
    (∃ t ∈ modifyServer clients comp (claimMap id), owns t m = true) ↔
      (m = toUShort id ∨ ∃ t ∈ clients, owns t m = true) := by
  constructor
  · rintro ⟨t, ht, hm⟩
    simp only [modifyServer, List.mem_map] at ht
    obtain ⟨s, hs, rfl⟩ := ht
    by_cases hmk : m = toUShort id
    · exact Or.inl hmk
    · right
      refine ⟨s, hs, ?_⟩
      by_cases hp : s.peer = comp
      · simpa [hp, owns_claimMap_ne _ _ _ hmk] using hm
      · simpa [hp] using hm
  · rintro (hmk | ⟨t, ht, hm⟩)
    · subst hmk
      simp only [connected, List.any_eq_true, decide_eq_true_eq] at hc
      obtain ⟨s, hs, hp⟩ := hc
      refine ⟨claimMap id s, ?_, owns_claimMap_self id s⟩
      simp only [modifyServer, List.mem_map]
      exact ⟨s, hs, by simp [hp]⟩
    · by_cases hp : t.peer = comp
      · refine ⟨claimMap id t, ?_, ?_⟩
        · simp only [modifyServer, List.mem_map]
          exact ⟨t, ht, by simp [hp]⟩
        · by_cases hmk : m = toUShort id
          · subst hmk; exact owns_claimMap_self id t
          · rw [owns_claimMap_ne _ _ _ hmk]; exact hm
      · refine ⟨t, ?_, hm⟩
        simp only [modifyServer, List.mem_map]
        exact ⟨t, ht, by simp [hp]⟩

/-- The Register loop in closed form: the sender gets the acknowledged ids
claimed in order, and one AGMSG_ACTIVE_MAP per acknowledged id is sent to it. -/
theorem registerMaps_eq (ids : List Int) (st : State) (comp : Nat) (taken : List Nat)
    (hc : connected st.clients comp = true)
    (htaken : ∀ m, m ∈ taken ↔ ∃ t ∈ st.clients, owns t m = true) :
    registerMaps st comp ids =
      { st with
        clients := modifyServer st.clients comp (claimAll (acknowledged taken ids))
        sent := st.sent ++ (acknowledged taken ids).map (fun id => (comp, activeMap id)) } := by
  induction ids generalizing st taken with
  | nil =>
    simp only [registerMaps, acknowledged, List.map_nil, List.append_nil]
    have : modifyServer st.clients comp (claimAll []) = st.clients := by
      unfold modifyServer
      conv => rhs; rw [← List.map_id st.clients]
      apply List.map_congr_left
      intro s _; split <;> rfl
    rw [this]
  | cons id rest ih =>
    cases hg : getGameServerFromMap st.clients id with
    | some s =>
      have hmem : toUShort id ∈ taken := by
        rw [htaken]
        exact ⟨s, getGameServerFromMap_some _ _ _ hg⟩
      simp only [registerMaps, hg, acknowledged, hmem, if_true]
      exact ih st taken hc htaken
    | none =>
      have hnot : ¬ toUShort id ∈ taken := by
        rw [htaken]
        rintro ⟨t, ht, hm⟩
        rw [getGameServerFromMap_eq_none] at hg
        rw [hg t ht] at hm
        exact Bool.false_ne_true hm
      simp only [registerMaps, hg, acknowledged, hnot, if_false]
      rw [ih _ (toUShort id :: taken)]
      · simp only [send, List.map_cons, List.append_assoc, List.singleton_append]
        rw [modifyServer_modifyServer _ _ _ _ (claimMap_peer id)]
        rfl
      · simp only [send]
        rw [connected_modifyServer _ _ _ _ (claimMap_peer id)]
        exact hc
      · intro m
        simp only [send, List.mem_cons]
        rw [owned_after_claim _ _ _ _ hc, htaken]

theorem ownedKeys_modifyServer_advertise (clients : List GameServer) (comp : Nat)
    (address : String) (port : Int) :
    ownedKeys (modifyServer clients comp (advertise address port)) = ownedKeys clients := by
  induction clients with
  | nil => rfl
  | cons s rest ih =>
    simp only [modifyServer, List.map_cons, ownedKeys] at ih ⊢
    rw [ih]
    split <;> rfl

/-- The whole GAMSG_REGISTER case in closed form. -/
theorem processMessage_register_eq (gen : Nat → String) (st : State) (comp : Nat)
    (address : String) (port : Int) (ids : List Int)
    (hc : connected st.clients comp = true) :
    processMessage gen st comp (MessageIn.register address port ids) =
      { st with
        clients := modifyServer (modifyServer st.clients comp (advertise address port)) comp
          (claimAll (acknowledged (ownedKeys st.clients) ids))
        sent := st.sent ++
          (acknowledged (ownedKeys st.clients) ids).map (fun id => (comp, activeMap id)) } := by
  simp only [processMessage, dispatch, List.length_nil, lt_self_iff_false, if_false]
  rw [registerMaps_eq ids _ comp (ownedKeys st.clients)]
  · simp only []
    rw [connected_modifyServer st.clients comp comp (advertise address port) (fun _ => rfl)]
    exact hc
  · intro m
    simp only []
    rw [← ownedKeys_modifyServer_advertise st.clients comp address port, mem_ownedKeys]

theorem mem_acknowledged_keys (ids : List Int) (taken : List Nat) (m : Nat) :
    m ∈ (acknowledged taken ids).map toUShort ↔ m ∈ ids.map toUShort ∧ m ∉ taken := by
  induction ids generalizing taken with
  | nil => simp [acknowledged]
  | cons id rest ih =>
    by_cases h : toUShort id ∈ taken
    · simp only [acknowledged, h, if_true, ih, List.map_cons, List.mem_cons]
      constructor
      · rintro ⟨h1, h2⟩; exact ⟨Or.inr h1, h2⟩
      · rintro ⟨h1 | h1, h2⟩
        · subst h1; exact absurd h h2
        · exact ⟨h1, h2⟩
    · simp only [acknowledged, h, if_false, List.map_cons, List.mem_cons, ih]
      constructor
      · rintro (h1 | ⟨h1, h2⟩)
        · subst h1; exact ⟨Or.inl rfl, h⟩
        · exact ⟨Or.inr h1, fun h3 => h2 (Or.inr h3)⟩
      · rintro ⟨h1 | h1, h2⟩
        · exact Or.inl h1
        · by_cases h3 : m = toUShort id
          · exact Or.inl h3
          · right
            refine ⟨h1, ?_⟩
            rintro (h4 | h4)
            · exact h3 h4
            · exact h2 h4

theorem acknowledged_keys_nodup (ids : List Int) (taken : List Nat) :
    ((acknowledged taken ids).map toUShort).Nodup := by
  induction ids generalizing taken with
  | nil => simp [acknowledged]
  | cons id rest ih =>
    by_cases h : toUShort id ∈ taken
    · simp only [acknowledged, h, if_true]; exact ih taken
    · simp only [acknowledged, h, if_false, List.map_cons, List.nodup_cons]
      refine ⟨?_, ih _⟩
      rw [mem_acknowledged_keys]
      simp

theorem acknowledged_sublist (ids : List Int) (taken : List Nat) :
    (acknowledged taken ids).Sublist ids := by
  induction ids generalizing taken with
  | nil => simp [acknowledged]
  | cons id rest ih =>
    by_cases h : toUShort id ∈ taken
    · simp only [acknowledged, h, if_true]
      exact (ih taken).cons _
    · simp only [acknowledged, h, if_false]
      exact (ih _).cons₂ _

theorem acknowledged_skip (pre post : List Int) (id : Int) (taken : List Nat)
    (h : toUShort id ∈ taken) :
    acknowledged taken (pre ++ id :: post) = acknowledged taken (pre ++ post) := by
  induction pre generalizing taken with
  | nil => simp [acknowledged, h]
  | cons x rest ih =>
    by_cases hx : toUShort x ∈ taken
    · simp only [List.cons_append, acknowledged, hx, if_true]
      exact ih taken h
    · simp only [List.cons_append, acknowledged, hx, if_false]
      exact congrArg (List.cons x) (ih _ (List.mem_cons_of_mem _ h))

theorem find_claimMap_ne (id : Int) (s : GameServer) (m : Nat) (hm : m ≠ toUShort id) :
    ServerStatistics.find (claimMap id s).maps m = ServerStatistics.find s.maps m := by
  simp only [claimMap, ServerStatistics.find_assign, hm, if_false,
    ServerStatistics.find_subscript_ne _ _ _ hm]

theorem find_claimMap_absent (id : Int) (s : GameServer)
    (h : owns s (toUShort id) = false) :
    ServerStatistics.find (claimMap id s).maps (toUShort id) = some MapStatistics.zero := by
  have h2 : ServerStatistics.find s.maps (toUShort id) = none := by
    simpa [owns] using h
  simp only [claimMap, ServerStatistics.find_assign, if_true,
    ServerStatistics.find_subscript_absent _ _ h2]
  rfl

theorem find_claimAll_not_mem (ids : List Int) (s : GameServer) (m : Nat)
    (hm : m ∉ ids.map toUShort) :
    ServerStatistics.find (claimAll ids s).maps m = ServerStatistics.find s.maps m := by
  induction ids generalizing s with
  | nil => rfl
  | cons id rest ih =>
    simp only [List.map_cons, List.mem_cons, not_or] at hm
    simp only [claimAll, List.foldl_cons] at ih ⊢
    rw [ih _ hm.2, find_claimMap_ne _ _ _ hm.1]

theorem find_claimAll_mem (ids : List Int) (s : GameServer) (m : Nat)
    (hm : m ∈ ids.map toUShort) (hnodup : (ids.map toUShort).Nodup)
    (hfree : ∀ k ∈ ids.map toUShort, owns s k = false) :
    ServerStatistics.find (claimAll ids s).maps m = some MapStatistics.zero := by
  induction ids generalizing s with
  | nil => simp at hm
  | cons id rest ih =>
    simp only [List.map_cons, List.nodup_cons] at hnodup
    simp only [List.map_cons, List.mem_cons] at hm
    have hfree_id : owns s (toUShort id) = false := hfree _ (by simp)
    by_cases hrest : m ∈ rest.map toUShort
    · simp only [claimAll, List.foldl_cons] at ih ⊢
      apply ih _ hrest hnodup.2
      intro k hk
      have hne : k ≠ toUShort id := fun h => hnodup.1 (h ▸ hk)
      rw [owns_claimMap_ne _ _ _ hne]
      exact hfree k (by simp [List.mem_map] at hk ⊢; exact Or.inr hk)
    · have hmid : m = toUShort id := by
        rcases hm with h | h
        · exact h
        · exact absurd h hrest
      have := find_claimAll_not_mem rest (claimMap id s) m hrest
      simp only [claimAll, List.foldl_cons] at this ⊢
      rw [this, hmid]
      exact find_claimMap_absent id s hfree_id

theorem findServer_modifyServer (clients : List GameServer) (comp : Nat)
    (f : GameServer → GameServer) (hf : ∀ s, (f s).peer = s.peer) :
    findServer (modifyServer clients comp f) comp = (findServer clients comp).map f := by
  induction clients with
  | nil => rfl
  | cons s rest ih =>
    simp only [modifyServer, List.map_cons] at ih ⊢
    by_cases h : s.peer = comp
    · simp [findServer, h, hf]
    · simp [findServer, h, ih]

theorem findServer_some_mem (clients : List GameServer) (comp : Nat) (s : GameServer)
    (h : findServer clients comp = some s) : s ∈ clients ∧ s.peer = comp := by
  induction clients with
  | nil => simp [findServer] at h
  | cons c rest ih =>
    by_cases hc : c.peer = comp
    · simp only [findServer, hc, if_true, Option.some.injEq] at h
      subst h
      exact ⟨List.mem_cons_self _ _, hc⟩
    · simp only [findServer, hc, if_false] at h
      exact ⟨List.mem_cons_of_mem _ (ih h).1, (ih h).2⟩

theorem connected_of_findServer (clients : List GameServer) (comp : Nat) (s : GameServer)
    (h : findServer clients comp = some s) : connected clients comp = true := by
  have := findServer_some_mem clients comp s h
  simp only [connected, List.any_eq_true, decide_eq_true_eq]
  exact ⟨s, this.1, this.2⟩

theorem statsOf_modifyServer (clients : List GameServer) (comp : Nat)
    (f : GameServer → GameServer) (m : Nat) (hpeer : ∀ s, (f s).peer = s.peer)
    (hfind : ∀ s ∈ clients, s.peer = comp →
      ServerStatistics.find (f s).maps m = ServerStatistics.find s.maps m) :
    statsOf (modifyServer clients comp f) m = statsOf clients m := by
  unfold statsOf modifyServer
  rw [List.map_map]
  apply List.map_congr_left
  intro s hs
  by_cases h : s.peer = comp
  · simp only [Function.comp, h, if_true, hpeer, hfind s hs h]
  · simp [Function.comp, h]

theorem getGameServerFromMap_peer_statsOf (clients : List GameServer) (id : Int) :
    (getGameServerFromMap clients id).map GameServer.peer =
      ((statsOf clients (toUShort id)).find? (fun r => r.2.isSome)).map Prod.fst := by
  induction clients with
  | nil => rfl
  | cons s rest ih =>
    simp only [statsOf, List.map_cons] at ih ⊢
    cases h : ServerStatistics.find s.maps (toUShort id) with
    | none => simp [getGameServerFromMap, h, List.find?_cons, ih]
    | some v => simp [getGameServerFromMap, h, List.find?_cons]

/-- C2: when some connected server (another one or the sender itself) already
holds map id m, processing a Register message alters no ownership or statistics
for m: what every server's table stores for m is the same afterwards (so m is
not added to the sender and the owner's statistics stay), the owner lookup for m
gives the same connection, no AGMSG_ACTIVE_MAP for m is among the messages sent,
and the message has the same effect as the message with an occurrence of m
removed, so the ids that follow m are processed as usual. -/
theorem register_conflict_leaves_map_untouched (gen : Nat → String) (st : State) (comp : Nat)
    (address : String) (port : Int) (ids : List Int) (m : Nat)
    (hc : connected st.clients comp = true)
    (howned : ∃ t ∈ st.clients, owns t m = true) :
    statsOf (processMessage gen st comp (MessageIn.register address port ids)).clients m =
        statsOf st.clients m ∧
      (∀ id : Int, toUShort id = m →
        (getGameServerFromMap
            (processMessage gen st comp (MessageIn.register address port ids)).clients id).map
            GameServer.peer =
          (getGameServerFromMap st.clients id).map GameServer.peer) ∧
      (∃ new, (processMessage gen st comp (MessageIn.register address port ids)).sent =
          st.sent ++ new ∧
        ∀ r, (r, [Field.msgId OutId.AGMSG_ACTIVE_MAP, Field.short m]) ∉ new) ∧
      (∀ pre id post, ids = pre ++ id :: post → toUShort id = m →
        processMessage gen st comp (MessageIn.register address port ids) =
          processMessage gen st comp (MessageIn.register address port (pre ++ post))) := by
  have hm : m ∈ ownedKeys st.clients := (mem_ownedKeys _ _).2 howned
  have hnot : m ∉ (acknowledged (ownedKeys st.clients) ids).map toUShort := by
    rw [mem_acknowledged_keys]
    exact fun h => h.2 hm
  have hstats : statsOf (processMessage gen st comp (MessageIn.register address port ids)).clients m =
      statsOf st.clients m := by
    rw [processMessage_register_eq gen st comp address port ids hc]
    simp only []
    rw [modifyServer_modifyServer st.clients comp (advertise address port) _ (fun _ => rfl)]
    apply statsOf_modifyServer
    · intro s; rw [claimAll_peer]; rfl
    · intro s _ _
      rw [find_claimAll_not_mem _ _ _ hnot]
      rfl
  refine ⟨hstats, ?_, ?_, ?_⟩
  · intro id hid
    rw [getGameServerFromMap_peer_statsOf, getGameServerFromMap_peer_statsOf, hid, hstats]
  · refine ⟨(acknowledged (ownedKeys st.clients) ids).map (fun id => (comp, activeMap id)), ?_, ?_⟩
    · rw [processMessage_register_eq gen st comp address port ids hc]
    · intro r hr
      simp only [List.mem_map, activeMap, Prod.mk.injEq, List.cons.injEq, Field.short.injEq,
        and_true, true_and] at hr
      obtain ⟨id, hid, _, hidm⟩ := hr
      exact hnot (List.mem_map.2 ⟨id, hid, hidm⟩)
  · intro pre id post hids hid
    rw [processMessage_register_eq gen st comp address port ids hc,
      processMessage_register_eq gen st comp address port (pre ++ post) hc, hids,
      acknowledged_skip pre post id _ (hid ▸ hm)]

/-- Witness for C2: after A registered maps 1 and 2, B registers maps 2 and 3;
map 2 is held by A. -/
theorem register_conflict_leaves_map_untouched_witness :
    connected exampleAfterA.clients 20 = true ∧
    (∃ t ∈ exampleAfterA.clients, owns t 2 = true) ∧
    statsOf (processMessage exampleGen exampleAfterA 20
        (MessageIn.register "b.example" 9602 [2, 3])).clients 2 =
      statsOf exampleAfterA.clients 2 :=
  ⟨by decide, ⟨_, List.mem_cons_self _ _, by decide⟩,
    (register_conflict_leaves_map_untouched exampleGen exampleAfterA 20 "b.example" 9602 [2, 3] 2
      (by decide) ⟨_, List.mem_cons_self _ _, by decide⟩).1⟩

/-- C3: after a Register message from server c listing map ids, the table of c
holds exactly the maps it held before, with their stored statistics, together
with those listed ids that no connected server owned before the message, each
with nbThings = 0, nbMonsters = 0 and an empty player list. -/
theorem register_adds_exactly_the_free_maps (gen : Nat → String) (st : State) (comp : Nat)
    (address : String) (port : Int) (ids : List Int) (s : GameServer)
    (hs : findServer st.clients comp = some s) :
    ∃ s1, findServer (processMessage gen st comp
        (MessageIn.register address port ids)).clients comp = some s1 ∧
      ∀ m, ServerStatistics.find s1.maps m =
        if owns s m = true then ServerStatistics.find s.maps m
        else if m ∈ ids.map toUShort ∧ m ∉ ownedKeys st.clients then some MapStatistics.zero
        else none := by
  have hc := connected_of_findServer _ _ _ hs
  have hmem := (findServer_some_mem _ _ _ hs).1
  refine ⟨claimAll (acknowledged (ownedKeys st.clients) ids) (advertise address port s), ?_, ?_⟩
  · rw [processMessage_register_eq gen st comp address port ids hc]
    simp only []
    rw [findServer_modifyServer _ _ _ (claimAll_peer _),
      findServer_modifyServer st.clients comp (advertise address port) (fun _ => rfl), hs]
    rfl
  · intro m
    by_cases hfresh : m ∈ (acknowledged (ownedKeys st.clients) ids).map toUShort
    · have hfresh2 := (mem_acknowledged_keys _ _ _).1 hfresh
      have hnot : ¬ owns s m = true := by
        intro h
        exact hfresh2.2 ((mem_ownedKeys _ _).2 ⟨s, hmem, h⟩)
      rw [if_neg hnot, if_pos hfresh2]
      apply find_claimAll_mem _ _ _ hfresh (acknowledged_keys_nodup _ _)
      intro k hk
      have hk2 := ((mem_acknowledged_keys _ _ _).1 hk).2
      rw [owns_advertise]
      cases hsk : owns s k with
      | false => rfl
      | true => exact absurd ((mem_ownedKeys _ _).2 ⟨s, hmem, hsk⟩) hk2
    · rw [find_claimAll_not_mem _ _ _ hfresh]
      have hcond : ¬ (m ∈ ids.map toUShort ∧ m ∉ ownedKeys st.clients) :=
        fun h => hfresh ((mem_acknowledged_keys _ _ _).2 h)
      rw [if_neg hcond]
      by_cases hown : owns s m = true
      · rw [if_pos hown]; rfl
      · rw [if_neg hown]
        simp only [owns, Option.isSome_iff_exists, not_exists] at hown
        cases hf : ServerStatistics.find s.maps m with
        | none => exact hf
        | some v => exact absurd hf (hown v)

/-- Witness for C3: A registers maps 1 and 2, then B registers maps 2 and 3;
afterwards A owns maps 1 and 2 and B owns map 3. -/
theorem register_adds_exactly_the_free_maps_witness :
    findServer exampleAfterA.clients 20 = some (GameServer.new 20) ∧
    (∃ s1, findServer (processMessage exampleGen exampleAfterA 20
        (MessageIn.register "b.example" 9602 [2, 3])).clients 20 = some s1 ∧
      ∀ m, ServerStatistics.find s1.maps m =
        if owns (GameServer.new 20) m = true then ServerStatistics.find (GameServer.new 20).maps m
        else if m ∈ [(2 : Int), 3].map toUShort ∧ m ∉ ownedKeys exampleAfterA.clients
          then some MapStatistics.zero
        else none) ∧
    exampleRegistered.clients.map (fun s => (s.peer, ServerStatistics.keys s.maps)) =
      [(10, [1, 2]), (20, [3])] :=
  ⟨by decide,
    register_adds_exactly_the_free_maps exampleGen exampleAfterA 20 "b.example" 9602 [2, 3]
      (GameServer.new 20) (by decide),
    by decide⟩

/-- C4: the messages sent while handling a Register message from c are exactly
one AGMSG_ACTIVE_MAP carrying the id, sent to c, for each acknowledged position
of the list, in list order, and nothing else; the acknowledged positions are
those whose map no server owned when the position was reached: a sublist of the
list, free of repeated maps, made of the listed maps that no server owned before
the message. -/
theorem register_sends_one_active_map_per_claim (gen : Nat → String) (st : State) (comp : Nat)
    (address : String) (port : Int) (ids : List Int)
    (hc : connected st.clients comp = true) :
    (processMessage gen st comp (MessageIn.register address port ids)).sent =
        st.sent ++ (acknowledged (ownedKeys st.clients) ids).map (fun id => (comp, activeMap id)) ∧
      (acknowledged (ownedKeys st.clients) ids).Sublist ids ∧
      ((acknowledged (ownedKeys st.clients) ids).map toUShort).Nodup ∧
      ∀ m, m ∈ (acknowledged (ownedKeys st.clients) ids).map toUShort ↔
        m ∈ ids.map toUShort ∧ m ∉ ownedKeys st.clients := by
  refine ⟨?_, acknowledged_sublist _ _, acknowledged_keys_nodup _ _,
    fun m => mem_acknowledged_keys _ _ m⟩
  rw [processMessage_register_eq gen st comp address port ids hc]

/-- Witness for C4: B lists map 2 (held by A) and map 3 twice; exactly one
AGMSG_ACTIVE_MAP, for map 3, is sent, to B. -/
theorem register_sends_one_active_map_per_claim_witness :
    connected exampleAfterA.clients 20 = true ∧
    (processMessage exampleGen exampleAfterA 20
        (MessageIn.register "b.example" 9602 [2, 3, 3])).sent =
      exampleAfterA.sent ++ [(20, [Field.msgId OutId.AGMSG_ACTIVE_MAP, Field.short 3])] :=
  ⟨by decide,
    (register_sends_one_active_map_per_claim exampleGen exampleAfterA 20 "b.example" 9602
      [2, 3, 3] (by decide)).1.trans (by decide)⟩

/-! ## Disconnecting -/

theorem Inv_not_both (clients : List GameServer) (h : Inv clients) (a b : GameServer)
    (ha : a ∈ clients) (hb : b ∈ clients) (hne : a.peer ≠ b.peer) (m : Nat) :
    ¬ (owns a m = true ∧ owns b m = true) := by
  have hsymm : Symmetric (fun a b : GameServer =>
      a.peer ≠ b.peer ∧ ∀ m, ¬ (owns a m = true ∧ owns b m = true)) := by
    intro x y hxy
    exact ⟨fun e => hxy.1 e.symm, fun k hk => hxy.2 k ⟨hk.2, hk.1⟩⟩
  have hab : a ≠ b := fun e => hne (by rw [e])
  exact (List.Pairwise.forall hsymm h ha hb hab).2 m

theorem getGameServerFromMap_filter_other (clients : List GameServer) (comp : Nat) (id : Int)
    (s : GameServer) (h : getGameServerFromMap clients id = some s) (hs : s.peer ≠ comp) :
    getGameServerFromMap (clients.filter (fun t => ¬ (t.peer = comp))) id = some s := by
  induction clients with
  | nil => simp [getGameServerFromMap] at h
  | cons c rest ih =>
    cases hc : ServerStatistics.find c.maps (toUShort id) with
    | none =>
      simp only [getGameServerFromMap, hc] at h
      by_cases hp : c.peer = comp
      · simp only [List.filter_cons, hp, not_true_eq_false, decide_False, Bool.false_eq_true,
          if_false]
        exact ih h
      · simp only [List.filter_cons, hp, not_false_eq_true, decide_True, if_true,
          getGameServerFromMap, hc]
        exact ih h
    | some v =>
      simp only [getGameServerFromMap, hc, Option.some.injEq] at h
      subst h
      simp only [List.filter_cons, hs, not_false_eq_true, decide_True, if_true,
        getGameServerFromMap, hc]

theorem findServer_filter_other (clients : List GameServer) (comp p : Nat) (hp : p ≠ comp) :
    findServer (clients.filter (fun t => ¬ (t.peer = comp))) p = findServer clients p := by
  induction clients with
  | nil => rfl
  | cons c rest ih =>
    by_cases hc : c.peer = comp
    · have hcp : ¬ c.peer = p := fun e => hp (e.symm.trans hc)
      rw [List.filter_cons_of_neg (by simp [hc])]
      simp only [findServer, hcp, if_false]
      exact ih
    · rw [List.filter_cons_of_pos (by simp [hc])]
      by_cases hcp : c.peer = p
      · simp only [findServer, hcp, if_true]
      · simp only [findServer, hcp, if_false]
        exact ih

theorem getGameServerFromMap_filter_released (clients : List GameServer) (h : Inv clients)
    (comp : Nat) (id : Int) (s : GameServer) (hs : s ∈ clients) (hp : s.peer = comp)
    (hown : owns s (toUShort id) = true) :
    getGameServerFromMap (clients.filter (fun t => ¬ (t.peer = comp))) id = none := by
  rw [getGameServerFromMap_eq_none]
  intro t ht
  simp only [List.mem_filter, decide_eq_true_eq] at ht
  cases hto : owns t (toUShort id) with
  | false => rfl
  | true =>
    have hne : s.peer ≠ t.peer := fun e => ht.2 (e.symm.trans hp)
    exact absurd ⟨hown, hto⟩ (Inv_not_both clients h s t hs ht.1 hne _)

/-- C5: in every state the server can reach, after connected server c
disconnects, the owner lookup returns none for every map c owned and the same
owner as before for every map owned by another server; every other server is
still connected with its address, port, map table and statistics unchanged, and
c is no longer connected. -/
theorem disconnect_releases_exactly_its_maps (gen : Nat → String) (st0 : State)
    (events : List Event) (comp : Nat)
    (h0 : st0.clients = []) (hv : validRun gen st0 events = true) :
    (∀ (id : Int) (s : GameServer), s ∈ (run gen st0 events).clients → s.peer = comp →
        owns s (toUShort id) = true →
        getGameServerFromMap (computerDisconnected (run gen st0 events) comp).clients id = none) ∧
      (∀ (id : Int) (s : GameServer), getGameServerFromMap (run gen st0 events).clients id = some s →
        s.peer ≠ comp →
        getGameServerFromMap (computerDisconnected (run gen st0 events) comp).clients id = some s) ∧
      (∀ p, p ≠ comp →
        findServer (computerDisconnected (run gen st0 events) comp).clients p =
          findServer (run gen st0 events).clients p) ∧
      connected (computerDisconnected (run gen st0 events) comp).clients comp = false := by
  have hInv : Inv (run gen st0 events).clients :=
    run_Inv gen events st0 hv (by rw [h0]; exact Inv_nil)
  refine ⟨?_, ?_, ?_, ?_⟩
  · intro id s hs hp hown
    exact getGameServerFromMap_filter_released _ hInv comp id s hs hp hown
  · intro id s hg hs
    exact getGameServerFromMap_filter_other _ comp id s hg hs
  · intro p hp
    exact findServer_filter_other _ comp p hp
  · simp [connected, computerDisconnected]

/-- Witness for C5: after A registered maps 1 and 2 and B map 3, A disconnects;
map 1 has no owner afterwards and B is untouched. -/
theorem disconnect_releases_exactly_its_maps_witness :
    exampleState.clients = [] ∧ validRun exampleGen exampleState exampleEvents = true ∧
    connected (run exampleGen exampleState exampleEvents).clients 10 = true ∧
    getGameServerFromMap
      (computerDisconnected (run exampleGen exampleState exampleEvents) 10).clients 1 = none ∧
    findServer (computerDisconnected (run exampleGen exampleState exampleEvents) 10).clients 20 =
      findServer (run exampleGen exampleState exampleEvents).clients 20 :=
  ⟨rfl, by decide, by decide,
    (disconnect_releases_exactly_its_maps exampleGen exampleState exampleEvents 10 rfl
      (by decide)).1 1 _ (List.mem_cons_self _ _) (by decide) (by decide),
    (disconnect_releases_exactly_its_maps exampleGen exampleState exampleEvents 10 rfl
      (by decide)).2.2.1 20 (by decide)⟩

/-! ## The advertised address and port -/

theorem mem_modifyServer (clients : List GameServer) (comp : Nat) (f : GameServer → GameServer)
    (t : GameServer) (ht : t ∈ modifyServer clients comp f) :
    ∃ s ∈ clients, t = if s.peer = comp then f s else s := by
  simp only [modifyServer, List.mem_map] at ht
  obtain ⟨s, hs, rfl⟩ := ht
  exact ⟨s, hs, rfl⟩

theorem claimAll_address_port (ids : List Int) (s : GameServer) :
    (claimAll ids s).address = s.address ∧ (claimAll ids s).port = s.port := by
  induction ids generalizing s with
  | nil => exact ⟨rfl, rfl⟩
  | cons id rest ih =>
    simp only [claimAll, List.foldl_cons] at ih ⊢
    exact ih (claimMap id s)

/-- What the lookup with reference arguments reports after a Register message:
for a map whose owner is the server that sent the message, it returns true, the
advertised address, and the advertised port narrowed to the `short` member of
the server object. -/
theorem lookup_after_register (gen : Nat → String) (st : State) (comp : Nat)
    (address : String) (port : Int) (ids : List Int) (mapId : Int) (s : GameServer)
    (address0 : String) (port0 : Int)
    (hc : connected st.clients comp = true)
    (hs : getGameServerFromMap
      (processMessage gen st comp (MessageIn.register address port ids)).clients mapId = some s)
    (hp : s.peer = comp) :
    GameServerHandler.getGameServerFromMap
        (processMessage gen st comp (MessageIn.register address port ids)).clients mapId
        address0 port0 = (true, address, toShort port) := by
  have hmem := (getGameServerFromMap_some _ _ _ hs).1
  rw [processMessage_register_eq gen st comp address port ids hc] at hmem
  simp only [] at hmem
  obtain ⟨t, htmem, ht⟩ := mem_modifyServer _ _ _ _ hmem
  obtain ⟨u, _, hu⟩ := mem_modifyServer _ _ _ _ htmem
  have hsaddr : s.address = address ∧ s.port = toShort port := by
    by_cases htp : t.peer = comp
    · rw [if_pos htp] at ht
      by_cases hup : u.peer = comp
      · rw [if_pos hup] at hu
        rw [ht, hu]
        exact claimAll_address_port _ _
      · rw [if_neg hup] at hu
        rw [hu] at htp
        exact absurd htp hup
    · rw [if_neg htp] at ht
      rw [ht] at hp
      exact absurd hp htp
  simp only [GameServerHandler.getGameServerFromMap, hs, hsaddr.1, hsaddr.2]

/-- The `short` member holds an advertised 16-bit port unchanged exactly up to 32767. -/
theorem toShort_port (p : Int) (h0 : 0 ≤ p) (h1 : p < 65536) :
    toShort p = if p < 32768 then p else p - 65536 := by
  unfold toShort
  split
  · rw [Int.emod_eq_of_lt (by omega) (by omega)]; omega
  · have : (p + 32768) % 65536 = p + 32768 - 65536 := by omega
    rw [this]; omega

/-- C6 (the code at the failing input): a connected server registers map 1
advertising port 40000; the lookup for map 1 returns true with the advertised
address, but reports the port as -25536, the value of the `short` member, not
40000. -/
theorem lookup_reports_wrapped_port :
    validRun exampleGen exampleState
        [Event.connect 10, Event.message 10 (MessageIn.register "a.example" 40000 [1])] = true ∧
      GameServerHandler.getGameServerFromMap exampleHighPort.clients 1 "" 0 =
        (true, "a.example", -25536) ∧
      GameServerHandler.getGameServerFromMap exampleHighPort.clients 2 "" 0 = (false, "", 0) := by
  decide

/-! ## What a Statistics message does to the state -/

theorem processMessage_statistics (gen : Nat → String) (st : State) (comp : Nat)
    (entries : List StatisticsEntry) :
    processMessage gen st comp (MessageIn.statistics entries) =
      reportStatistics st comp entries := by
  simp [processMessage, dispatch]

theorem find_updateMap_ne (e : StatisticsEntry) (s : GameServer) (m : Nat)
    (hm : m ≠ toUShort e.mapId) :
    ServerStatistics.find (updateMap e s).maps m = ServerStatistics.find s.maps m := by
  simp only [updateMap, ServerStatistics.find_assign, hm, if_false]

theorem reportStatistics_statsOf (entries : List StatisticsEntry) (st : State) (comp : Nat)
    (m : Nat) (hnot : ∀ s ∈ st.clients, s.peer = comp → owns s m = false) :
    statsOf (reportStatistics st comp entries).clients m = statsOf st.clients m := by
  induction entries generalizing st with
  | nil => rfl
  | cons e rest ih =>
    cases hs : findServer st.clients comp with
    | none => simp only [reportStatistics, hs]
    | some server =>
      cases hf : ServerStatistics.find server.maps (toUShort e.mapId) with
      | none => simp only [reportStatistics, hs, hf]
      | some v =>
        simp only [reportStatistics, hs, hf]
        have hserver := findServer_some_mem _ _ _ hs
        have hne : m ≠ toUShort e.mapId := by
          intro heq
          have h1 := hnot server hserver.1 hserver.2
          rw [heq, owns, hf] at h1
          simp at h1
        rw [ih]
        · exact statsOf_modifyServer _ _ _ _ (fun _ => rfl)
            (fun s _ _ => find_updateMap_ne e s m hne)
        · intro t ht hp
          obtain ⟨s, hs2, rfl⟩ := mem_modifyServer _ _ _ _ ht
          by_cases hsp : s.peer = comp
          · simp only [hsp, if_true, owns_updateMap]
            exact hnot s hs2 hsp
          · rw [if_neg hsp] at hp
            exact absurd hp hsp

theorem not_owned_of_statsOf (clients1 clients2 : List GameServer) (comp m : Nat)
    (h : statsOf clients1 m = statsOf clients2 m)
    (hnot : ∀ s ∈ clients2, s.peer = comp → owns s m = false) :
    ∀ s ∈ clients1, s.peer = comp → owns s m = false := by
  intro s hs hp
  have hrow : (s.peer, ServerStatistics.find s.maps m) ∈ statsOf clients1 m :=
    List.mem_map.2 ⟨s, hs, rfl⟩
  rw [h] at hrow
  obtain ⟨t, ht, heq⟩ := List.mem_map.1 hrow
  simp only [Prod.mk.injEq] at heq
  have := hnot t ht (heq.1.trans hp)
  simp only [owns] at this ⊢
  rw [← heq.2]; exact this

/-- C7: for a Statistics message from server c and a map m that c does not own
(owned by another server or by none), what every server's table stores for m is
the same after processing as before, and c still does not own m. -/
theorem statistics_leaves_unowned_map_untouched (gen : Nat → String) (st : State) (comp : Nat)
    (entries : List StatisticsEntry) (m : Nat)
    (hnot : ∀ s ∈ st.clients, s.peer = comp → owns s m = false) :
    statsOf (processMessage gen st comp (MessageIn.statistics entries)).clients m =
        statsOf st.clients m ∧
      ∀ s ∈ (processMessage gen st comp (MessageIn.statistics entries)).clients,
        s.peer = comp → owns s m = false := by
  have h : statsOf (processMessage gen st comp (MessageIn.statistics entries)).clients m =
      statsOf st.clients m := by
    rw [processMessage_statistics]
    exact reportStatistics_statsOf entries st comp m hnot
  exact ⟨h, not_owned_of_statsOf _ _ comp m h hnot⟩

/-- Witness for C7: B, which owns map 3 only, reports statistics for map 1
(owned by A) and for map 5 (owned by none); the stored statistics of map 1 are
untouched. -/
theorem statistics_leaves_unowned_map_untouched_witness :
    (∀ s ∈ exampleRegistered.clients, s.peer = 20 → owns s 1 = false) ∧
    statsOf (processMessage exampleGen exampleRegistered 20
        (MessageIn.statistics [{ mapId := 1, nbThings := 4, nbMonsters := 2, players := [7] },
          { mapId := 5, nbThings := 1, nbMonsters := 1, players := [] }])).clients 1 =
      statsOf exampleRegistered.clients 1 :=
  ⟨by decide,
    (statistics_leaves_unowned_map_untouched exampleGen exampleRegistered 20
      [{ mapId := 1, nbThings := 4, nbMonsters := 2, players := [7] },
        { mapId := 5, nbThings := 1, nbMonsters := 1, players := [] }] 1 (by decide)).1⟩

theorem updateMap_peer (e : StatisticsEntry) (s : GameServer) : (updateMap e s).peer = s.peer := rfl

theorem updateAll_peer (entries : List StatisticsEntry) (s : GameServer) :
    (updateAll entries s).peer = s.peer := by
  induction entries generalizing s with
  | nil => rfl
  | cons e rest ih =>
    simp only [updateAll, List.foldl_cons] at ih ⊢
    rw [ih]; rfl

theorem owns_updateAll (entries : List StatisticsEntry) (s : GameServer) (m : Nat) :
    owns (updateAll entries s) m = owns s m := by
  induction entries generalizing s with
  | nil => rfl
  | cons e rest ih =>
    simp only [updateAll, List.foldl_cons] at ih ⊢
    rw [ih, owns_updateMap]

theorem modifyServer_id (clients : List GameServer) (comp : Nat) :
    modifyServer clients comp (fun s => s) = clients := by
  unfold modifyServer
  conv => rhs; rw [← List.map_id clients]
  apply List.map_congr_left
  intro s _; split <;> rfl

theorem applyEntries_eq (entries : List StatisticsEntry) (st : State) (comp : Nat) :
    applyEntries st comp entries =
      { st with clients := modifyServer st.clients comp (updateAll entries) } := by
  induction entries generalizing st with
  | nil =>
    simp only [applyEntries]
    have : modifyServer st.clients comp (updateAll []) = st.clients := modifyServer_id _ _
    rw [this]
  | cons e rest ih =>
    simp only [applyEntries]
    rw [ih]
    simp only []
    rw [modifyServer_modifyServer _ _ _ _ (updateMap_peer e)]
    rfl

/-- The Statistics loop in closed form: the entries up to the first one that
names a map the sender does not own are applied in order. -/
theorem reportStatistics_eq (entries : List StatisticsEntry) (st : State) (comp : Nat)
    (server : GameServer) (hs : findServer st.clients comp = some server) :
    reportStatistics st comp entries =
      applyEntries st comp (entries.takeWhile (fun e => owns server (toUShort e.mapId))) := by
  induction entries generalizing st server with
  | nil => rfl
  | cons e rest ih =>
    cases hf : ServerStatistics.find server.maps (toUShort e.mapId) with
    | none =>
      have hown : owns server (toUShort e.mapId) = false := by simp [owns, hf]
      simp only [reportStatistics, hs, hf, List.takeWhile_cons, hown, applyEntries,
        Bool.false_eq_true, if_false]
    | some v =>
      have hown : owns server (toUShort e.mapId) = true := by simp [owns, hf]
      simp only [reportStatistics, hs, hf, List.takeWhile_cons, hown, applyEntries, if_true]
      have hs1 : findServer (modifyServer st.clients comp (updateMap e)) comp =
          some (updateMap e server) := by
        rw [findServer_modifyServer _ _ _ (updateMap_peer e), hs]; rfl
      rw [ih _ (updateMap e server) hs1]
      have hpred : (fun x : StatisticsEntry => owns (updateMap e server) (toUShort x.mapId)) =
          (fun x : StatisticsEntry => owns server (toUShort x.mapId)) := by
        funext x; exact owns_updateMap e server _
      rw [hpred]

theorem takeWhile_stop {α : Type} (p : α → Bool) (pre post : List α) (x : α)
    (hpre : ∀ a ∈ pre, p a = true) (hx : p x = false) :
    (pre ++ x :: post).takeWhile p = pre := by
  induction pre with
  | nil => simp [List.takeWhile_cons, hx]
  | cons a rest ih =>
    have ha : p a = true := hpre a (List.mem_cons_self _ _)
    simp only [List.cons_append, List.takeWhile_cons, ha, if_true]
    rw [ih (fun b hb => hpre b (List.mem_cons_of_mem _ hb))]

theorem takeWhile_all {α : Type} (p : α → Bool) (l : List α) (h : ∀ a ∈ l, p a = true) :
    l.takeWhile p = l := by
  induction l with
  | nil => rfl
  | cons a rest ih =>
    have ha : p a = true := h a (List.mem_cons_self _ _)
    simp only [List.takeWhile_cons, ha, if_true]
    rw [ih (fun b hb => h b (List.mem_cons_of_mem _ hb))]

theorem takeWhile_through {α : Type} (p : α → Bool) (pre post : List α) (x : α)
    (hpre : ∀ a ∈ pre, p a = true) (hx : p x = true) :
    (pre ++ x :: post).takeWhile p = pre ++ x :: post.takeWhile p := by
  induction pre with
  | nil => simp [List.takeWhile_cons, hx]
  | cons a rest ih =>
    have ha : p a = true := hpre a (List.mem_cons_self _ _)
    simp only [List.cons_append, List.takeWhile_cons, ha, if_true]
    rw [ih (fun b hb => hpre b (List.mem_cons_of_mem _ hb))]

/-- C9: for a Statistics message from server c, if ek is the first entry naming
a map c does not own, the resulting state is the one obtained by applying the
entries before ek in order, and no entry after ek is applied, whatever map it
names; if every entry names a map c owns, all entries are applied in order. -/
theorem statistics_stops_at_first_unowned_map (gen : Nat → String) (st : State) (comp : Nat)
    (server : GameServer) (hs : findServer st.clients comp = some server) :
    (∀ (pre post : List StatisticsEntry) (ek : StatisticsEntry),
        (∀ e ∈ pre, owns server (toUShort e.mapId) = true) →
        owns server (toUShort ek.mapId) = false →
        processMessage gen st comp (MessageIn.statistics (pre ++ ek :: post)) =
          applyEntries st comp pre) ∧
      (∀ entries : List StatisticsEntry,
        (∀ e ∈ entries, owns server (toUShort e.mapId) = true) →
        processMessage gen st comp (MessageIn.statistics entries) =
          applyEntries st comp entries) := by
  constructor
  · intro pre post ek hpre hek
    rw [processMessage_statistics, reportStatistics_eq _ st comp server hs,
      takeWhile_stop _ pre post ek hpre hek]
  · intro entries hall
    rw [processMessage_statistics, reportStatistics_eq _ st comp server hs,
      takeWhile_all _ entries hall]

/-- Witness for C9: A, which owns maps 1 and 2, sends a valid entry for map 1,
then an entry for map 3 (not its own), then an entry for map 2; only map 1 is
updated. -/
theorem statistics_stops_at_first_unowned_map_witness :
    (∃ server, findServer exampleRegistered.clients 10 = some server) ∧
    processMessage exampleGen exampleRegistered 10
        (MessageIn.statistics
          ([{ mapId := 1, nbThings := 4, nbMonsters := 2, players := [7, 8] }] ++
            { mapId := 3, nbThings := 1, nbMonsters := 1, players := [] } ::
            [{ mapId := 2, nbThings := 5, nbMonsters := 5, players := [9] }])) =
      applyEntries exampleRegistered 10
        [{ mapId := 1, nbThings := 4, nbMonsters := 2, players := [7, 8] }] ∧
    (applyEntries exampleRegistered 10
        [{ mapId := 1, nbThings := 4, nbMonsters := 2, players := [7, 8] }]).clients.map
        (fun s => (s.peer, s.maps)) =
      [(10, [(1, { players := [7, 8], nbThings := 4, nbMonsters := 2 }),
             (2, { players := [], nbThings := 0, nbMonsters := 0 })]),
       (20, [(3, { players := [], nbThings := 0, nbMonsters := 0 })])] :=
  ⟨⟨_, rfl⟩,
    (statistics_stops_at_first_unowned_map exampleGen exampleRegistered 10 _ rfl).1
      [{ mapId := 1, nbThings := 4, nbMonsters := 2, players := [7, 8] }]
      [{ mapId := 2, nbThings := 5, nbMonsters := 5, players := [9] }]
      { mapId := 3, nbThings := 1, nbMonsters := 1, players := [] }
      (by decide) (by decide),
    by decide⟩

/-! ## Overwriting a statistics record -/

theorem resize_length (v : List Int) (n : Nat) : (resize v n).length = n := by
  simp only [resize, List.length_append, List.length_take, List.length_replicate]
  omega

theorem take_succ_set (vec : List Int) (j : Nat) (p : Int) (hj : j < vec.length) :
    (vec.set j p).take (j + 1) = vec.take j ++ [p] := by
  rw [List.take_succ, List.getElem?_set_self hj]
  congr 1
  induction vec generalizing j with
  | nil => simp
  | cons a rest ih =>
    cases j with
    | zero => simp
    | succ k =>
      simp only [List.set_cons_succ, List.take_succ_cons, List.cons.injEq, true_and]
      exact ih k (by simpa using hj)

theorem readPlayers_eq (ps : List Int) (vec : List Int) (j : Nat)
    (hlen : vec.length = j + ps.length) :
    readPlayers vec j ps = vec.take j ++ ps := by
  induction ps generalizing vec j with
  | nil =>
    simp only [readPlayers, List.append_nil]
    rw [List.take_of_length_le (by simp at hlen; omega)]
  | cons p rest ih =>
    simp only [readPlayers]
    have hj : j < vec.length := by simp at hlen; omega
    rw [ih (vec.set j p) (j + 1) (by simp at hlen ⊢; omega), take_succ_set vec j p hj]
    simp

/-- The record written for a statistics entry does not depend on the record
that was stored before. -/
theorem storeStatistics_eq (e : StatisticsEntry) (m : MapStatistics) :
    storeStatistics e m =
      { players := e.players, nbThings := toUShort e.nbThings,
        nbMonsters := toUShort e.nbMonsters } := by
  simp only [storeStatistics]
  rw [readPlayers_eq e.players _ 0 (by rw [resize_length]; simp)]
  simp

theorem toUShort_of_range (v : Int) (h0 : 0 ≤ v) (h1 : v < 65536) : toUShort v = v.toNat := by
  simp only [toUShort]
  rw [Int.emod_eq_of_lt h0 h1]

theorem find_updateMap_self (e : StatisticsEntry) (s : GameServer) :
    ServerStatistics.find (updateMap e s).maps (toUShort e.mapId) =
      (ServerStatistics.find s.maps (toUShort e.mapId)).map (storeStatistics e) := by
  simp only [updateMap, ServerStatistics.find_assign, if_true]

theorem find_updateAll_other (entries : List StatisticsEntry) (s : GameServer) (m : Nat)
    (h : ∀ x ∈ entries, toUShort x.mapId ≠ m) :
    ServerStatistics.find (updateAll entries s).maps m = ServerStatistics.find s.maps m := by
  induction entries generalizing s with
  | nil => rfl
  | cons e rest ih =>
    simp only [updateAll, List.foldl_cons] at ih ⊢
    rw [ih _ (fun x hx => h x (List.mem_cons_of_mem _ hx)),
      find_updateMap_ne e s m (fun heq => h e (List.mem_cons_self _ _) heq.symm)]

theorem updateAll_append (pre post : List StatisticsEntry) (s : GameServer) :
    updateAll (pre ++ post) s = updateAll post (updateAll pre s) := by
  simp [updateAll, List.foldl_append]

/-- C8: when a Statistics message from server c contains an entry for a map m
that c owns, the entry is applied (every entry before it names a map c owns) and
it is the last applied entry for m, then afterwards the record stored for m is
exactly nbThings = things, nbMonsters = monsters and players = the player ids
of the entry in wire order: nothing of the previous record remains. The two
counts are 16-bit unsigned wire values. -/
theorem statistics_overwrites_whole_record (gen : Nat → String) (st : State) (comp : Nat)
    (server : GameServer) (pre post : List StatisticsEntry) (e : StatisticsEntry)
    (hs : findServer st.clients comp = some server)
    (hpre : ∀ x ∈ pre, owns server (toUShort x.mapId) = true)
    (he : owns server (toUShort e.mapId) = true)
    (hlast : ∀ x ∈ post.takeWhile (fun x => owns server (toUShort x.mapId)),
      toUShort x.mapId ≠ toUShort e.mapId)
    (hthings : 0 ≤ e.nbThings ∧ e.nbThings < 65536)
    (hmonsters : 0 ≤ e.nbMonsters ∧ e.nbMonsters < 65536) :
    ∃ s1, findServer (processMessage gen st comp
        (MessageIn.statistics (pre ++ e :: post))).clients comp = some s1 ∧
      ServerStatistics.find s1.maps (toUShort e.mapId) =
        some { players := e.players, nbThings := e.nbThings.toNat,
               nbMonsters := e.nbMonsters.toNat } := by
  refine ⟨updateAll (pre ++ e :: post.takeWhile (fun x => owns server (toUShort x.mapId)))
    server, ?_, ?_⟩
  · rw [processMessage_statistics, reportStatistics_eq _ st comp server hs,
      takeWhile_through _ pre post e hpre he, applyEntries_eq]
    simp only []
    rw [findServer_modifyServer _ _ _ (updateAll_peer _), hs]
    rfl
  · rw [updateAll_append]
    have hcons : ∀ (l : List StatisticsEntry) (s : GameServer),
        updateAll (e :: l) s = updateAll l (updateMap e s) := fun _ _ => rfl
    rw [hcons, find_updateAll_other _ _ _ hlast, find_updateMap_self]
    have hown : owns (updateAll pre server) (toUShort e.mapId) = true := by
      rw [owns_updateAll]; exact he
    simp only [owns, Option.isSome_iff_exists] at hown
    obtain ⟨v, hv⟩ := hown
    rw [hv, Option.map_some', storeStatistics_eq,
      toUShort_of_range _ hthings.1 hthings.2, toUShort_of_range _ hmonsters.1 hmonsters.2]

/-- Witness for C8: A owns map 1 and reports it twice, with three players and
then with one; afterwards the record is the second entry, with the single
player. -/
theorem statistics_overwrites_whole_record_witness :
    ∃ s1, findServer (processMessage exampleGen exampleRegistered 10
        (MessageIn.statistics
          ([{ mapId := 1, nbThings := 4, nbMonsters := 2, players := [7, 8, 9] }] ++
            { mapId := 1, nbThings := 40000, nbMonsters := 3, players := [5] } ::
            []))).clients 10 = some s1 ∧
      ServerStatistics.find s1.maps 1 =
        some { players := [5], nbThings := 40000, nbMonsters := 3 } :=
  statistics_overwrites_whole_record exampleGen exampleRegistered 10 _
    [{ mapId := 1, nbThings := 4, nbMonsters := 2, players := [7, 8, 9] }] []
    { mapId := 1, nbThings := 40000, nbMonsters := 3, players := [5] }
    rfl (by decide) (by decide) (by decide) (by decide) (by decide)

/-! ## Redirect requests -/

/-- C10, as the code behaves: for a RequestRedirect message naming an existing
character whose current map has no owning connection, one token is drawn from
the token dispenser and discarded (the handler draws it before it looks the
character up); it is bound to nothing and sent to nobody: no message is sent to
the requesting server or to any other server, and the registry, the character
store and the pending reconnects are unchanged. -/
theorem redirect_without_owner_only_draws_token (gen : Nat → String) (st : State) (comp : Nat)
    (id : Int) (ptr : Character)
    (hchar : st.storage.getCharacter id = some ptr)
    (hnone : getGameServerFromMap st.clients ptr.getMapId = none) :
    processMessage gen st comp (MessageIn.redirect id) =
      { st with tokensDrawn := st.tokensDrawn + 1 } := by
  simp [processMessage, dispatch, getMagicToken, hchar, hnone]

/-- Witness for C10 as amended: character 7 is on map 9, which no server has
registered. -/
theorem redirect_without_owner_only_draws_token_witness :
    exampleRegistered.storage.getCharacter 7 = some exampleCharacter ∧
      getGameServerFromMap exampleRegistered.clients exampleCharacter.getMapId = none ∧
      processMessage exampleGen exampleRegistered 10 (MessageIn.redirect 7) =
        { exampleRegistered with tokensDrawn := exampleRegistered.tokensDrawn + 1 } :=
  ⟨by decide, by decide,
    redirect_without_owner_only_draws_token exampleGen exampleRegistered 10 7 exampleCharacter
      (by decide) (by decide)⟩

/-- C10 as stated fails: character 7 exists and its map 9 has no owning
connection, yet handling the RequestRedirect draws a token from the dispenser
(nothing is sent and the registry is unchanged). -/
theorem redirect_without_owner_draws_token :
    (∃ ptr, exampleRegistered.storage.getCharacter 7 = some ptr ∧
        getGameServerFromMap exampleRegistered.clients ptr.getMapId = none) ∧
      ¬ ((processMessage exampleGen exampleRegistered 10 (MessageIn.redirect 7)).tokensDrawn =
            exampleRegistered.tokensDrawn ∧
          (processMessage exampleGen exampleRegistered 10 (MessageIn.redirect 7)).sent =
            exampleRegistered.sent ∧
          (processMessage exampleGen exampleRegistered 10 (MessageIn.redirect 7)).clients =
            exampleRegistered.clients) := by
  refine ⟨⟨exampleCharacter, by decide, by decide⟩, ?_⟩
  decide

theorem toUShort_toShort (p : Int) (h0 : 0 ≤ p) (h1 : p < 65536) :
    toUShort (toShort p) = p.toNat := by
  rw [toShort_port p h0 h1]
  unfold toUShort
  split
  · rw [Int.emod_eq_of_lt h0 h1]
  · have : (p - 65536) % 65536 = p := by omega
    rw [this]

/-- C11: for a RequestRedirect message naming an existing character whose
current map is owned by connected server s, exactly one token t is drawn; s is
sent one AGMSG_PLAYER_ENTER carrying t and the character's database id (then
its name and data); the requesting server is sent exactly one
AGMSG_REDIRECT_RESPONSE carrying id, the same t, the address of s and the port
of s as 16 bits, which for a server that advertised port p is p; nothing else
is sent and no connection, map ownership, statistics, stored character or
pending reconnect changes. -/
theorem redirect_issues_one_token_and_notifies (gen : Nat → String) (st : State) (comp : Nat)
    (id : Int) (ptr : Character) (s : GameServer)
    (hchar : st.storage.getCharacter id = some ptr)
    (hown : getGameServerFromMap st.clients ptr.getMapId = some s) :
    processMessage gen st comp (MessageIn.redirect id) =
        { st with
          tokensDrawn := st.tokensDrawn + 1
          sent := st.sent ++
            [(s.peer, [Field.msgId OutId.AGMSG_PLAYER_ENTER, Field.fixedString (gen st.tokensDrawn),
                Field.long ptr.databaseID, Field.string ptr.name,
                Field.characterData (serializeCharacterData ptr)]),
             (comp, [Field.msgId OutId.AGMSG_REDIRECT_RESPONSE, Field.long id,
                Field.fixedString (gen st.tokensDrawn), Field.string s.address,
                Field.short (toUShort s.port)])] } ∧
      (∀ p : Int, 0 ≤ p → p < 65536 → s.port = toShort p → toUShort s.port = p.toNat) := by
  constructor
  · simp [processMessage, dispatch, getMagicToken, hchar, hown, registerGameClient, send]
  · intro p h0 h1 hp
    rw [hp, toUShort_toShort p h0 h1]

/-- Witness for C11: A asks to redirect character 8, located on map 3, which B
registered advertising port 9602. -/
theorem redirect_issues_one_token_and_notifies_witness :
    exampleWithTraveller.storage.getCharacter 8 = some exampleTraveller ∧
    (processMessage exampleGen exampleWithTraveller 10 (MessageIn.redirect 8)).sent =
      exampleWithTraveller.sent ++
        [(20, [Field.msgId OutId.AGMSG_PLAYER_ENTER, Field.fixedString "token", Field.long 8,
            Field.string "eve", Field.characterData { mapId := 3, attributes := [4, 2] }]),
         (10, [Field.msgId OutId.AGMSG_REDIRECT_RESPONSE, Field.long 8,
            Field.fixedString "token", Field.string "b.example", Field.short 9602])] :=
  ⟨by decide,
    (congrArg State.sent
      (redirect_issues_one_token_and_notifies exampleGen exampleWithTraveller 10 8
        exampleTraveller
        { peer := 20, address := "b.example", maps := [(3, MapStatistics.zero)], port := 9602 }
        (by decide) (by decide)).1).trans (by decide)⟩

/-! ## Unknown messages, missing characters, silent messages -/

/-- C13: for every message whose type is not one of the eight handled ones
(the disabled guild types included), processMessage sends the sender exactly one
message consisting of the XXMSG_INVALID indicator and changes nothing else: no
other message is sent, the registry and the character store are unchanged, and
the sender is connected afterwards exactly if it was before. -/
theorem unknown_message_gets_invalid_reply (gen : Nat → String) (st : State) (comp : Nat)
    (n : Nat) :
    processMessage gen st comp (MessageIn.other n) =
        { st with sent := st.sent ++ [(comp, [Field.msgId OutId.XXMSG_INVALID])] } ∧
      connected (processMessage gen st comp (MessageIn.other n)).clients comp =
        connected st.clients comp := by
  constructor <;> simp [processMessage, dispatch, send]

/-- C14: for a PushCharacterData, RequestRedirect or RequestReconnect message
naming a database id for which the character store has no record, the handler
writes nothing to the store, does not call the reconnect preparation, sends no
message and leaves the registry unchanged: the state is the same afterwards
(for RequestRedirect up to the token drawn before the lookup), so whatever
message the connection sends next is handled on the same registry and store. -/
theorem missing_character_aborts_only_the_message (gen : Nat → String) (st : State) (comp : Nat)
    (id : Int) (hnone : st.storage.getCharacter id = none) :
    (∀ data, processMessage gen st comp (MessageIn.playerData id data) = st) ∧
      processMessage gen st comp (MessageIn.redirect id) =
        { st with tokensDrawn := st.tokensDrawn + 1 } ∧
      (∀ token, processMessage gen st comp (MessageIn.playerReconnect id token) = st) ∧
      (∀ data next, processMessage gen (processMessage gen st comp (MessageIn.playerData id data))
          comp next = processMessage gen st comp next) ∧
      (∀ token next,
        processMessage gen (processMessage gen st comp (MessageIn.playerReconnect id token))
          comp next = processMessage gen st comp next) := by
  have h1 : ∀ data, processMessage gen st comp (MessageIn.playerData id data) = st := by
    intro data; simp [processMessage, dispatch, hnone]
  have h3 : ∀ token, processMessage gen st comp (MessageIn.playerReconnect id token) = st := by
    intro token; simp [processMessage, dispatch, hnone]
  refine ⟨h1, ?_, h3, ?_, ?_⟩
  · simp [processMessage, dispatch, getMagicToken, hnone]
  · intro data next; rw [h1]
  · intro token next; rw [h3]

/-- Witness for C14: the example store has no character with database id 99. -/
theorem missing_character_aborts_only_the_message_witness :
    exampleRegistered.storage.getCharacter 99 = none ∧
      processMessage exampleGen exampleRegistered 10
        (MessageIn.playerData 99 { mapId := 1, attributes := [] }) = exampleRegistered ∧
      processMessage exampleGen exampleRegistered 10 (MessageIn.playerReconnect 99 "token") =
        exampleRegistered :=
  ⟨by decide,
    (missing_character_aborts_only_the_message exampleGen exampleRegistered 10 99
      (by decide)).1 _,
    (missing_character_aborts_only_the_message exampleGen exampleRegistered 10 99
      (by decide)).2.2.1 _⟩

theorem reportStatistics_sent (entries : List StatisticsEntry) (st : State) (comp : Nat) :
    (reportStatistics st comp entries).sent = st.sent := by
  induction entries generalizing st with
  | nil => rfl
  | cons e rest ih =>
    cases hs : findServer st.clients comp with
    | none => simp only [reportStatistics, hs]
    | some server =>
      cases hf : ServerStatistics.find server.maps (toUShort e.mapId) with
      | none => simp only [reportStatistics, hs, hf]
      | some v =>
        simp only [reportStatistics, hs, hf]
        rw [ih]

/-- C15: for every PushCharacterData, RequestReconnect, QuestVariableSet,
BanCharacter and ReportStatistics message, in every state (character present or
absent, store accepting or rejecting writes, maps owned or not), processMessage
sends no message to anyone: the sequence of sent messages is unchanged. -/
theorem silent_messages_send_nothing (gen : Nat → String) (st : State) (comp : Nat) :
    (∀ id data, (processMessage gen st comp (MessageIn.playerData id data)).sent = st.sent) ∧
      (∀ id token,
        (processMessage gen st comp (MessageIn.playerReconnect id token)).sent = st.sent) ∧
      (∀ id name value,
        (processMessage gen st comp (MessageIn.setQuest id name value)).sent = st.sent) ∧
      (∀ id duration,
        (processMessage gen st comp (MessageIn.banPlayer id duration)).sent = st.sent) ∧
      (∀ entries,
        (processMessage gen st comp (MessageIn.statistics entries)).sent = st.sent) := by
  refine ⟨?_, ?_, ?_, ?_, ?_⟩
  · intro id data
    cases h : st.storage.getCharacter id <;> simp [processMessage, dispatch, h]
  · intro id token
    cases h : st.storage.getCharacter id <;>
      simp [processMessage, dispatch, h, prepareReconnect]
  · intro id name value; simp [processMessage, dispatch]
  · intro id duration; simp [processMessage, dispatch]
  · intro entries
    rw [processMessage_statistics, reportStatistics_sent]

/-! ## Pushing character data -/

theorem find_after_update (characters : List Character) (id : Int) (r c : Character)
    (hc : c.databaseID = id)
    (hr : characters.find? (fun x => x.databaseID = id) = some r) :
    (characters.map (fun x => if x.databaseID = c.databaseID then c else x)).find?
      (fun x => x.databaseID = id) = some c := by
  induction characters with
  | nil => simp at hr
  | cons a rest ih =>
    by_cases ha : a.databaseID = id
    · simp [List.find?_cons, ha, hc]
    · have hr2 : rest.find? (fun x => x.databaseID = id) = some r := by
        simpa [List.find?_cons, ha] using hr
      simp only [List.map_cons, hc, ha, if_false, List.find?_cons, decide_False]
      rw [hc] at ih
      exact ih hr2

theorem getCharacter_databaseID (s : Storage) (id : Int) (r : Character)
    (hr : s.getCharacter id = some r) : r.databaseID = id := by
  have := List.find?_some hr
  simpa using this

/-- C16: for an existing character record r with database id `id` and any
payload, when processMessage handles PushCharacterData(id, payload) and the
store accepts the write, a subsequent fetch of `id` returns the record obtained
by applying the payload onto r, whose payload fields are those pushed and whose
database id, account id and name are those of r; when the store rejects the
write, the state, and with it the stored record, is unchanged. -/
theorem pushed_character_data_round_trip (gen : Nat → String) (st : State) (comp : Nat)
    (id : Int) (data : CharacterData) (r : Character)
    (hr : st.storage.getCharacter id = some r) :
    (st.storage.rejectsWrites = false →
        (processMessage gen st comp (MessageIn.playerData id data)).storage.getCharacter id =
            some (deserializeCharacterData r data) ∧
          serializeCharacterData (deserializeCharacterData r data) = data ∧
          (deserializeCharacterData r data).databaseID = r.databaseID ∧
          (deserializeCharacterData r data).accountID = r.accountID ∧
          (deserializeCharacterData r data).name = r.name) ∧
      (st.storage.rejectsWrites = true →
        processMessage gen st comp (MessageIn.playerData id data) = st ∧
          (processMessage gen st comp (MessageIn.playerData id data)).storage.getCharacter id =
            some r) := by
  constructor
  · intro hw
    refine ⟨?_, rfl, rfl, rfl, rfl⟩
    have hstate : processMessage gen st comp (MessageIn.playerData id data) =
        { st with storage :=
            (st.storage.updateCharacter (deserializeCharacterData r data)).1 } := by
      simp [processMessage, dispatch, hr]
    rw [hstate]
    simp only [Storage.updateCharacter, hw, Bool.false_eq_true, if_false, Storage.getCharacter]
    apply find_after_update _ id r
    · exact getCharacter_databaseID _ _ r hr
    · exact hr
  · intro hw
    have h : processMessage gen st comp (MessageIn.playerData id data) = st := by
      simp [processMessage, dispatch, hr, Storage.updateCharacter, hw]
    exact ⟨h, by rw [h]; exact hr⟩

/-- Witness for C16: new data for character 7 is pushed to a store that accepts
writes; the next fetch returns the record with the pushed data. -/
theorem pushed_character_data_round_trip_witness :
    exampleRegistered.storage.getCharacter 7 = some exampleCharacter ∧
      exampleRegistered.storage.rejectsWrites = false ∧
      (processMessage exampleGen exampleRegistered 10
          (MessageIn.playerData 7 { mapId := 2, attributes := [5] })).storage.getCharacter 7 =
        some { databaseID := 7, accountID := 1, name := "bob",
               data := { mapId := 2, attributes := [5] } } :=
  ⟨by decide, by decide,
    ((pushed_character_data_round_trip exampleGen exampleRegistered 10 7
      { mapId := 2, attributes := [5] } exampleCharacter (by decide)).1 (by decide)).1⟩

/-! ## Connections that have not registered -/

theorem registerMaps_mem (ids : List Int) (st : State) (comp : Nat) (t : GameServer)
    (ht : t ∈ (registerMaps st comp ids).clients) :
    ∃ s ∈ st.clients, t.peer = s.peer ∧ (s.peer ≠ comp → t = s) := by
  induction ids generalizing st with
  | nil => exact ⟨t, ht, rfl, fun _ => rfl⟩
  | cons id rest ih =>
    cases hg : getGameServerFromMap st.clients id with
    | some o =>
      simp only [registerMaps, hg] at ht
      exact ih st ht
    | none =>
      simp only [registerMaps, hg] at ht
      obtain ⟨u, hu, hpeer, hsame⟩ := ih _ ht
      simp only [send] at hu
      obtain ⟨s, hs, hus⟩ := mem_modifyServer _ _ _ _ hu
      refine ⟨s, hs, ?_, ?_⟩
      · rw [hpeer, hus]; split <;> rfl
      · intro hne
        have : u = s := by rw [hus, if_neg hne]
        rw [this] at hsame
        exact hsame hne

theorem updateMap_blank (e : StatisticsEntry) (s : GameServer) (h : s.maps = []) :
    updateMap e s = s := by
  cases s with
  | mk peer address maps port =>
    simp only at h
    subst h
    rfl

theorem reportStatistics_mem (entries : List StatisticsEntry) (st : State) (comp : Nat)
    (t : GameServer) (ht : t ∈ (reportStatistics st comp entries).clients) :
    ∃ s ∈ st.clients, t.peer = s.peer ∧ ((s.peer ≠ comp ∨ s.maps = []) → t = s) := by
  induction entries generalizing st with
  | nil => exact ⟨t, ht, rfl, fun _ => rfl⟩
  | cons e rest ih =>
    cases hs : findServer st.clients comp with
    | none =>
      simp only [reportStatistics, hs] at ht
      exact ⟨t, ht, rfl, fun _ => rfl⟩
    | some server =>
      cases hf : ServerStatistics.find server.maps (toUShort e.mapId) with
      | none =>
        simp only [reportStatistics, hs, hf] at ht
        exact ⟨t, ht, rfl, fun _ => rfl⟩
      | some v =>
        simp only [reportStatistics, hs, hf] at ht
        obtain ⟨u, hu, hpeer, hsame⟩ := ih _ ht
        obtain ⟨s, hs2, hus⟩ := mem_modifyServer _ _ _ _ hu
        have hus2 : (s.peer ≠ comp ∨ s.maps = []) → u = s := by
          rintro (hne | hblank)
          · rw [hus, if_neg hne]
          · rw [hus]
            split
            · exact updateMap_blank e s hblank
            · rfl
        refine ⟨s, hs2, ?_, ?_⟩
        · rw [hpeer, hus]; split <;> rfl
        · intro hcond
          have hu_eq := hus2 hcond
          rw [hu_eq] at hsame
          exact hsame hcond

theorem playerData_clients (gen : Nat → String) (st : State) (comp : Nat) (id : Int)
    (data : CharacterData) :
    (processMessage gen st comp (MessageIn.playerData id data)).clients = st.clients := by
  rw [processMessage_clients]
  simp only [dispatch]
  split <;> rfl

theorem redirect_clients (gen : Nat → String) (st : State) (comp : Nat) (id : Int) :
    (processMessage gen st comp (MessageIn.redirect id)).clients = st.clients := by
  rw [processMessage_clients]
  simp only [dispatch, getMagicToken]
  split
  · split <;> rfl
  · rfl

theorem playerReconnect_clients (gen : Nat → String) (st : State) (comp : Nat) (id : Int)
    (token : String) :
    (processMessage gen st comp (MessageIn.playerReconnect id token)).clients = st.clients := by
  rw [processMessage_clients]
  simp only [dispatch]
  split <;> rfl

theorem Blank_step (gen : Nat → String) (st : State) (reg : List Nat) (e : Event)
    (hv : e.valid st = true) (h : Blank st.clients reg) :
    Blank (step gen st e).clients (noteRegistration reg e) := by
  cases e with
  | connect peer =>
    have hnew : connected st.clients peer = false := by simpa [Event.valid] using hv
    rw [connected_eq_false] at hnew
    intro s hs hreg
    simp only [step, computerConnected, List.mem_append, List.mem_singleton] at hs
    rcases hs with hs | hs
    · apply h s hs
      intro hmem
      apply hreg
      simp only [noteRegistration, List.mem_filter, decide_eq_true_eq]
      exact ⟨hmem, hnew s hs⟩
    · rw [hs]; rfl
  | disconnect comp =>
    intro s hs hreg
    simp only [step, computerDisconnected, List.mem_filter] at hs
    exact h s hs.1 hreg
  | message comp msg =>
    cases msg with
    | register address port maps =>
      intro t ht hreg
      simp only [noteRegistration, List.mem_cons, not_or] at hreg
      simp only [step, processMessage_clients, dispatch] at ht
      obtain ⟨u, hu, hpeer, hsame⟩ := registerMaps_mem _ _ _ _ ht
      obtain ⟨s, hs, hus⟩ := mem_modifyServer _ _ _ _ hu
      have hne : s.peer ≠ comp := by
        intro heq
        apply hreg.1
        rw [hpeer, hus, if_pos heq]
        exact heq
      have hu_eq : u = s := by rw [hus, if_neg hne]
      rw [hu_eq] at hsame hpeer
      rw [hsame hne]
      apply h s hs
      rw [← hpeer]; exact hreg.2
    | statistics entries =>
      intro t ht hreg
      simp only [noteRegistration] at hreg
      simp only [step, processMessage_statistics] at ht
      obtain ⟨s, hs, hpeer, hsame⟩ := reportStatistics_mem _ _ _ _ ht
      have hblank : s = GameServer.new s.peer := h s hs (by rw [← hpeer]; exact hreg)
      have hmaps : s.maps = [] := by rw [hblank]; rfl
      rw [hsame (Or.inr hmaps)]
      exact hblank
    | playerData id data =>
      intro t ht hreg
      simp only [step, playerData_clients] at ht
      exact h t ht hreg
    | redirect id =>
      intro t ht hreg
      simp only [step, redirect_clients] at ht
      exact h t ht hreg
    | playerReconnect id token =>
      intro t ht hreg
      simp only [step, playerReconnect_clients] at ht
      exact h t ht hreg
    | getQuest id name => exact h
    | setQuest id name value => exact h
    | banPlayer id duration => exact h
    | other id => exact h

theorem Blank_run (gen : Nat → String) (events : List Event) (st : State) (reg : List Nat)
    (hv : validRun gen st events = true) (h : Blank st.clients reg) :
    Blank (run gen st events).clients (registeredPeers reg events) := by
  induction events generalizing st reg with
  | nil => exact h
  | cons e es ih =>
    simp only [validRun, Bool.and_eq_true] at hv
    exact ih (step gen st e) (noteRegistration reg e) hv.2 (Blank_step gen st reg e hv.1 h)

/-- C18: in every state the server can reach, every connection for which no
Register message has been processed since it connected has the empty string as
advertised address, port 0 and no maps, whatever other messages (PlayerData,
Redirect, Reconnect, quest, ban, Statistics, unknown) it or any other connection
has had processed, and whatever other connections registered. -/
theorem unregistered_connection_is_blank (gen : Nat → String) (st0 : State)
    (events : List Event) (h0 : st0.clients = []) (hv : validRun gen st0 events = true) :
    ∀ s ∈ (run gen st0 events).clients, s.peer ∉ registeredPeers [] events →
      s.address = "" ∧ s.port = 0 ∧ s.maps = [] := by
  intro s hs hreg
  have hblank : Blank st0.clients [] := by
    intro t ht; rw [h0] at ht; simp at ht
  have := Blank_run gen events st0 [] hv hblank s hs hreg
  rw [this]
  exact ⟨rfl, rfl, rfl⟩

/-- Witness for C18: B has sent Statistics, Redirect, SetQuest and an unknown
message, A has registered; B is still blank. -/
theorem unregistered_connection_is_blank_witness :
    exampleState.clients = [] ∧ validRun exampleGen exampleState exampleBusyEvents = true ∧
      GameServer.new 20 ∈ (run exampleGen exampleState exampleBusyEvents).clients ∧
      (20 ∉ registeredPeers [] exampleBusyEvents) ∧
      (GameServer.new 20).address = "" ∧ (GameServer.new 20).port = 0 ∧
      (GameServer.new 20).maps = [] :=
  ⟨rfl, by decide, by decide, by decide,
    unregistered_connection_is_blank exampleGen exampleState exampleBusyEvents rfl (by decide)
      (GameServer.new 20) (by decide) (by decide)⟩

/-! ## Registering a client with the owner of its map -/

/-- C19, as the code behaves: registerClient completes exactly when some
connected game server owns the character's current map, and then it sends that
server one AGMSG_PLAYER_ENTER with the token and the character; when no
connected server owns the map, `assert(s)` fails. -/
theorem registerClient_completes_iff_owner (st : State) (token : String) (ptr : Character) :
    (GameServerHandler.registerClient st token ptr).isSome =
        (getGameServerFromMap st.clients ptr.getMapId).isSome ∧
      (∀ s, getGameServerFromMap st.clients ptr.getMapId = some s →
        GameServerHandler.registerClient st token ptr =
          some (send st s.peer
            [Field.msgId OutId.AGMSG_PLAYER_ENTER, Field.fixedString token,
             Field.long ptr.databaseID, Field.string ptr.name,
             Field.characterData (serializeCharacterData ptr)])) ∧
      (getGameServerFromMap st.clients ptr.getMapId = none →
        GameServerHandler.registerClient st token ptr = none) := by
  refine ⟨?_, ?_, ?_⟩
  · cases h : getGameServerFromMap st.clients ptr.getMapId <;>
      simp [GameServerHandler.registerClient, h]
  · intro s h
    simp [GameServerHandler.registerClient, h, registerGameClient]
  · intro h
    simp [GameServerHandler.registerClient, h]

/-- Witness for C19 as amended: character 8 is on map 3, which B owns. -/
theorem registerClient_completes_iff_owner_witness :
    getGameServerFromMap exampleWithTraveller.clients exampleTraveller.getMapId =
        some { peer := 20, address := "b.example", maps := [(3, MapStatistics.zero)],
               port := 9602 } ∧
      GameServerHandler.registerClient exampleWithTraveller "token" exampleTraveller =
        some (send exampleWithTraveller 20
          [Field.msgId OutId.AGMSG_PLAYER_ENTER, Field.fixedString "token",
           Field.long 8, Field.string "eve",
           Field.characterData (serializeCharacterData exampleTraveller)]) :=
  ⟨by decide,
    (registerClient_completes_iff_owner exampleWithTraveller "token" exampleTraveller).2.1
      { peer := 20, address := "b.example", maps := [(3, MapStatistics.zero)], port := 9602 }
      (by decide)⟩

/-- C19 as stated fails: character 7 is on map 9, which no connected game
server owns, and registerClient does not complete: the assertion fails. -/
theorem registerClient_asserts_without_owner :
    getGameServerFromMap exampleRegistered.clients exampleCharacter.getMapId = none ∧
      ¬ (GameServerHandler.registerClient exampleRegistered "token" exampleCharacter).isSome =
        true := by
  decide

/-! ## The map of a player record -/

/-- C20, as the code behaves: after setMap(mapId) the getter getMap() returns
mapId narrowed to the `unsigned short` member, that is mapId modulo 65536, which
is mapId itself exactly for 0 <= mapId <= 65535; no other attribute of the
record (account id, database id, name, level, money, position, raw statistics,
appearance, possessions) changes. -/
theorem setMap_getMap (p : PlayerData) (mapId : Int) :
    (p.setMap mapId).getMap = mapId % 65536 ∧
      (0 ≤ mapId → mapId < 65536 → (p.setMap mapId).getMap = mapId) ∧
      (p.setMap mapId).getAccountID = p.getAccountID ∧
      (p.setMap mapId).getDatabaseID = p.getDatabaseID ∧
      (p.setMap mapId).getName = p.getName ∧
      (p.setMap mapId).getLevel = p.getLevel ∧
      (p.setMap mapId).getMoney = p.getMoney ∧
      (p.setMap mapId).getPos = p.getPos ∧
      (p.setMap mapId).mRawStats = p.mRawStats ∧
      (p.setMap mapId).mGender = p.mGender ∧
      (p.setMap mapId).mHairStyle = p.mHairStyle ∧
      (p.setMap mapId).mHairColor = p.mHairColor ∧
      (p.setMap mapId).mPossessions = p.mPossessions := by
  have h : (p.setMap mapId).getMap = mapId % 65536 := by
    simp only [PlayerData.setMap, PlayerData.getMap, toUShort]
    exact Int.toNat_of_nonneg (Int.emod_nonneg _ (by decide))
  refine ⟨h, ?_, rfl, rfl, rfl, rfl, rfl, rfl, rfl, rfl, rfl, rfl, rfl⟩
  intro h0 h1
  rw [h, Int.emod_eq_of_lt h0 h1]

/-- Witness for C20 as amended: map 5 is set and read back. -/
theorem setMap_getMap_witness :
    (0 : Int) ≤ 5 ∧ (5 : Int) < 65536 ∧ (examplePlayer.setMap 5).getMap = 5 :=
  ⟨by decide, by decide, (setMap_getMap examplePlayer 5).2.1 (by decide) (by decide)⟩

/-- C20 as stated fails: after setMap(70000) the getter returns 4464, and after
setMap(-1) it returns 65535. -/
theorem setMap_getMap_wraps :
    (examplePlayer.setMap 70000).getMap = 4464 ∧ (examplePlayer.setMap 70000).getMap ≠ 70000 ∧
      (examplePlayer.setMap (-1)).getMap = 65535 := by
  decide

/-! ## Handoff tokens -/

theorem find_filter_other (pending : List HandoffToken) (t u : String) (h : t ≠ u) :
    (pending.filter (fun e => ¬ (e.token = u))).find? (fun e => e.token = t) =
      pending.find? (fun e => e.token = t) := by
  induction pending with
  | nil => rfl
  | cons a rest ih =>
    by_cases hu : a.token = u
    · have ht : ¬ a.token = t := fun e => h (e.symm.trans hu)
      rw [List.filter_cons_of_neg (by simp [hu]), List.find?_cons_of_neg _ (by simp [ht])]
      exact ih
    · rw [List.filter_cons_of_pos (by simp [hu])]
      by_cases ht : a.token = t
      · simp [List.find?_cons, ht]
      · rw [List.find?_cons_of_neg _ (by simp [ht]), List.find?_cons_of_neg _ (by simp [ht])]
        exact ih

/-- While the token is neither redeemed nor handed out again, its binding stays. -/
theorem binding_kept (gen : Nat → String) (n0 : Nat) (e0 : HandoffToken)
    (hunique : ∀ n, n0 < n → gen n ≠ e0.token)
    (ops : List BrokerOp) (hops : BrokerOp.redeem e0.token ∉ ops) (b : HandoffBroker)
    (hdrawn : n0 < b.tokensDrawn)
    (hbound : b.pending.find? (fun e => e.token = e0.token) = some e0) :
    n0 < (HandoffBroker.run gen b ops).tokensDrawn ∧
      (HandoffBroker.run gen b ops).pending.find? (fun e => e.token = e0.token) = some e0 := by
  induction ops generalizing b with
  | nil => exact ⟨hdrawn, hbound⟩
  | cons op rest ih =>
    simp only [List.mem_cons, not_or] at hops
    simp only [HandoffBroker.run]
    cases op with
    | issue accountID characterID =>
      apply ih hops.2
      · simp only [HandoffBroker.step, HandoffBroker.issue]; omega
      · have hne : gen b.tokensDrawn ≠ e0.token := hunique _ hdrawn
        simp only [HandoffBroker.step, HandoffBroker.issue]
        rw [List.find?_cons_of_neg _ (by simp [hne]),
          find_filter_other _ _ _ (fun e => hne e.symm)]
        exact hbound
    | redeem token =>
      have hne : e0.token ≠ token := by
        intro e; apply hops.1; rw [e]
      cases hf : b.pending.find? (fun e => e.token = token) with
      | none =>
        apply ih hops.2
        · simp only [HandoffBroker.step, HandoffBroker.redeem, hf]; exact hdrawn
        · simp only [HandoffBroker.step, HandoffBroker.redeem, hf]; exact hbound
      | some x =>
        apply ih hops.2
        · simp only [HandoffBroker.step, HandoffBroker.redeem, hf]; exact hdrawn
        · simp only [HandoffBroker.step, HandoffBroker.redeem, hf]
          rw [find_filter_other _ _ _ hne]
          exact hbound

/-- Once the token has no binding and is not handed out again, it never gets one. -/
theorem unbound_kept (gen : Nat → String) (n0 : Nat) (t : String)
    (hunique : ∀ n, n0 < n → gen n ≠ t)
    (ops : List BrokerOp) (b : HandoffBroker) (hdrawn : n0 < b.tokensDrawn)
    (hfree : ∀ e ∈ b.pending, e.token ≠ t) :
    ∀ e ∈ (HandoffBroker.run gen b ops).pending, e.token ≠ t := by
  induction ops generalizing b with
  | nil => exact hfree
  | cons op rest ih =>
    simp only [HandoffBroker.run]
    cases op with
    | issue accountID characterID =>
      apply ih
      · simp only [HandoffBroker.step, HandoffBroker.issue]; omega
      · intro e he
        simp only [HandoffBroker.step, HandoffBroker.issue, List.mem_cons, List.mem_filter] at he
        rcases he with he | he
        · rw [he]; exact hunique _ hdrawn
        · exact hfree e he.1
    | redeem token =>
      cases hf : b.pending.find? (fun e => e.token = token) with
      | none =>
        apply ih
        · simp only [HandoffBroker.step, HandoffBroker.redeem, hf]; exact hdrawn
        · simp only [HandoffBroker.step, HandoffBroker.redeem, hf]; exact hfree
      | some x =>
        apply ih
        · simp only [HandoffBroker.step, HandoffBroker.redeem, hf]; exact hdrawn
        · intro e he
          simp only [HandoffBroker.step, HandoffBroker.redeem, hf, List.mem_filter] at he
          exact hfree e he.1

theorem redeem_unbound (b : HandoffBroker) (t : String)
    (hfree : ∀ e ∈ b.pending, e.token ≠ t) : (b.redeem t).1 = none := by
  have : b.pending.find? (fun e => e.token = t) = none := by
    rw [List.find?_eq_none]
    intro e he
    simpa using hfree e he
  simp [HandoffBroker.redeem, this]

/-- C12: a token returned by issue redeems successfully exactly once. As long
as the dispenser does not hand out the same token again: after any calls that
do not redeem it, the first redeem with the token returns the bound account id
and removes the binding, and after any further calls every later redeem with
the same token returns not-found. -/
theorem issued_token_redeems_exactly_once (gen : Nat → String) (b : HandoffBroker)
    (accountID characterID : Int) (between later : List BrokerOp)
    (hunique : ∀ n, b.tokensDrawn < n → gen n ≠ gen b.tokensDrawn)
    (hbetween : BrokerOp.redeem (b.issue gen accountID characterID).1 ∉ between) :
    ((HandoffBroker.run gen (b.issue gen accountID characterID).2 between).redeem
        (b.issue gen accountID characterID).1).1 = some accountID ∧
      (∀ e ∈ ((HandoffBroker.run gen (b.issue gen accountID characterID).2 between).redeem
          (b.issue gen accountID characterID).1).2.pending,
        e.token ≠ (b.issue gen accountID characterID).1) ∧
      ((HandoffBroker.run gen
          ((HandoffBroker.run gen (b.issue gen accountID characterID).2 between).redeem
            (b.issue gen accountID characterID).1).2 later).redeem
        (b.issue gen accountID characterID).1).1 = none := by
  have hkept := binding_kept gen b.tokensDrawn
    { token := gen b.tokensDrawn, characterID := characterID, accountID := accountID }
    hunique between hbetween (b.issue gen accountID characterID).2
    (by simp [HandoffBroker.issue]) (by simp [HandoffBroker.issue])
  obtain ⟨hdrawn, hbound⟩ := hkept
  have ht : (b.issue gen accountID characterID).1 = gen b.tokensDrawn := rfl
  rw [ht]
  have hredeem : (HandoffBroker.run gen (b.issue gen accountID characterID).2 between).redeem
      (gen b.tokensDrawn) =
      (some accountID,
        { HandoffBroker.run gen (b.issue gen accountID characterID).2 between with
          pending := (HandoffBroker.run gen (b.issue gen accountID characterID).2
            between).pending.filter (fun x => ¬ (x.token = gen b.tokensDrawn)) }) := by
    simp only [HandoffBroker.redeem]
    simp only [] at hbound
    rw [hbound]
  have hfree : ∀ e ∈ ((HandoffBroker.run gen (b.issue gen accountID characterID).2 between).redeem
      (gen b.tokensDrawn)).2.pending, e.token ≠ gen b.tokensDrawn := by
    rw [hredeem]
    intro e he
    simp only [List.mem_filter, decide_eq_true_eq] at he
    exact he.2
  refine ⟨by rw [hredeem], hfree, ?_⟩
  apply redeem_unbound
  apply unbound_kept gen b.tokensDrawn _ hunique later _ _ hfree
  rw [hredeem]
  exact hdrawn

/-- Witness for C12: a token is issued for account 1, another token is issued
and redeemed in between, then the first token is redeemed twice. -/
theorem issued_token_redeems_exactly_once_witness :
    (exampleBroker.issue exampleCounterGen 1 7).1 = "x" ∧
      ((HandoffBroker.run exampleCounterGen (exampleBroker.issue exampleCounterGen 1 7).2
          [BrokerOp.issue 2 8, BrokerOp.redeem "xx"]).redeem "x").1 = some 1 ∧
      ((HandoffBroker.run exampleCounterGen
          ((HandoffBroker.run exampleCounterGen (exampleBroker.issue exampleCounterGen 1 7).2
            [BrokerOp.issue 2 8, BrokerOp.redeem "xx"]).redeem "x").2
          [BrokerOp.issue 3 9]).redeem "x").1 = none :=
  ⟨by decide,
    (issued_token_redeems_exactly_once exampleCounterGen exampleBroker 1 7
      [BrokerOp.issue 2 8, BrokerOp.redeem "xx"] [BrokerOp.issue 3 9]
      (by
        intro n hn h
        have hlen := congrArg String.length h
        simp [exampleCounterGen, exampleBroker, String.length] at hlen
        simp [exampleBroker] at hn
        omega)
      (by decide)).1,
    (issued_token_redeems_exactly_once exampleCounterGen exampleBroker 1 7
      [BrokerOp.issue 2 8, BrokerOp.redeem "xx"] [BrokerOp.issue 3 9]
      (by
        intro n hn h
        have hlen := congrArg String.length h
        simp [exampleCounterGen, exampleBroker, String.length] at hlen
        simp [exampleBroker] at hn
        omega)
      (by decide)).2.2⟩

/-! ## The statistics dump -/

theorem dumpPlayers_eq (players : List Int) (os : String) :
    dumpPlayers os players = os ++ concatAll (players.map characterElement) := by
  induction players generalizing os with
  | nil => simp [dumpPlayers, concatAll]
  | cons k rest ih =>
    simp only [dumpPlayers, List.map_cons, concatAll, ih, characterElement, String.append_assoc]

theorem dumpMaps_eq (maps : ServerStatistics) (os : String) :
    dumpMaps os maps = os ++ concatAll (maps.map mapElement) := by
  induction maps generalizing os with
  | nil => simp [dumpMaps, concatAll]
  | cons entry rest ih =>
    obtain ⟨id, m⟩ := entry
    simp only [dumpMaps, List.map_cons, concatAll, ih, mapElement, dumpPlayers_eq,
      String.append_assoc]

theorem dumpStatistics_eq (clients : List GameServer) (os : String) :
    GameServerHandler.dumpStatistics os clients = os ++ expectedDump clients := by
  induction clients generalizing os with
  | nil => simp [GameServerHandler.dumpStatistics, expectedDump, concatAll]
  | cons server rest ih =>
    by_cases hp : server.port = 0
    · simp only [GameServerHandler.dumpStatistics, hp, if_true, ih, expectedDump,
        List.filter_cons, not_true_eq_false, decide_False, Bool.false_eq_true, if_false]
    · simp only [GameServerHandler.dumpStatistics, hp, if_false, ih, expectedDump,
        List.filter_cons, not_false_eq_true, decide_True, if_true, List.map_cons, concatAll,
        gameserverElement, dumpMaps_eq, String.append_assoc]

theorem ServerStatistics.keys_assign (maps : ServerStatistics) (key : Nat)
    (f : MapStatistics → MapStatistics) :
    ServerStatistics.keys (ServerStatistics.assign maps key f) = ServerStatistics.keys maps := by
  induction maps with
  | nil => rfl
  | cons kv rest ih =>
    obtain ⟨k, v⟩ := kv
    simp only [ServerStatistics.keys] at ih
    by_cases hk : k = key
    · simp [ServerStatistics.assign, ServerStatistics.keys, hk]
    · simp [ServerStatistics.assign, ServerStatistics.keys, hk, ih]

theorem ServerStatistics.mem_keys_subscript (maps : ServerStatistics) (key m : Nat)
    (h : m ∈ ServerStatistics.keys (ServerStatistics.subscript maps key)) :
    m = key ∨ m ∈ ServerStatistics.keys maps := by
  by_cases hm : m = key
  · exact Or.inl hm
  · right
    rw [ServerStatistics.mem_keys] at h ⊢
    rw [ServerStatistics.find_subscript_ne _ _ _ hm] at h
    exact h

theorem Ascending_subscript (maps : ServerStatistics) (key : Nat) (h : Ascending maps) :
    Ascending (ServerStatistics.subscript maps key) := by
  induction maps with
  | nil => simp [Ascending, ServerStatistics.subscript, ServerStatistics.keys]
  | cons kv rest ih =>
    obtain ⟨k, v⟩ := kv
    have hcons : ∀ b ∈ ServerStatistics.keys rest, k < b := by
      have := h
      simp only [Ascending, ServerStatistics.keys, List.map_cons, List.pairwise_cons] at this
      exact this.1
    have hrest : Ascending rest := by
      have := h
      simp only [Ascending, ServerStatistics.keys, List.map_cons, List.pairwise_cons] at this
      exact this.2
    by_cases h1 : key < k
    · simp only [ServerStatistics.subscript, h1, if_true]
      simp only [Ascending, ServerStatistics.keys, List.map_cons, List.pairwise_cons,
        List.mem_cons]
      refine ⟨?_, ?_, ?_⟩
      · rintro b (hb | hb)
        · rw [hb]; exact h1
        · exact Nat.lt_trans h1 (hcons b hb)
      · exact hcons
      · exact hrest
    · by_cases h2 : k = key
      · subst h2
        simp only [ServerStatistics.subscript, Nat.lt_irrefl, if_false, if_true]
        exact h
      · simp only [ServerStatistics.subscript, h1, h2, if_false]
        have hlt : k < key := by omega
        have hkeys : ServerStatistics.keys ((k, v) :: ServerStatistics.subscript rest key) =
            k :: ServerStatistics.keys (ServerStatistics.subscript rest key) := rfl
        unfold Ascending
        rw [hkeys, List.pairwise_cons]
        refine ⟨?_, ih hrest⟩
        intro b hb
        rcases ServerStatistics.mem_keys_subscript rest key b hb with hb2 | hb2
        · rw [hb2]; exact hlt
        · exact hcons b hb2

theorem Ascending_claimMap (id : Int) (s : GameServer) (h : Ascending s.maps) :
    Ascending (claimMap id s).maps := by
  simp only [claimMap, Ascending, ServerStatistics.keys_assign]
  exact Ascending_subscript _ _ h

theorem Ascending_updateMap (e : StatisticsEntry) (s : GameServer) (h : Ascending s.maps) :
    Ascending (updateMap e s).maps := by
  simp only [updateMap, Ascending, ServerStatistics.keys_assign]
  exact h

theorem forall_modifyServer (P : GameServer → Prop) (clients : List GameServer) (comp : Nat)
    (f : GameServer → GameServer) (hf : ∀ s, P s → P (f s)) (h : ∀ s ∈ clients, P s) :
    ∀ s ∈ modifyServer clients comp f, P s := by
  intro t ht
  obtain ⟨s, hs, hts⟩ := mem_modifyServer _ _ _ _ ht
  rw [hts]
  split
  · exact hf s (h s hs)
  · exact h s hs

theorem registerMaps_forall (P : GameServer → Prop) (hclaim : ∀ id s, P s → P (claimMap id s))
    (ids : List Int) (st : State) (comp : Nat) (h : ∀ s ∈ st.clients, P s) :
    ∀ s ∈ (registerMaps st comp ids).clients, P s := by
  induction ids generalizing st with
  | nil => exact h
  | cons id rest ih =>
    cases hg : getGameServerFromMap st.clients id with
    | some o => simp only [registerMaps, hg]; exact ih st h
    | none =>
      simp only [registerMaps, hg]
      apply ih
      exact forall_modifyServer P _ comp _ (hclaim id) h

theorem reportStatistics_forall (P : GameServer → Prop)
    (hupdate : ∀ e s, P s → P (updateMap e s))
    (entries : List StatisticsEntry) (st : State) (comp : Nat) (h : ∀ s ∈ st.clients, P s) :
    ∀ s ∈ (reportStatistics st comp entries).clients, P s := by
  induction entries generalizing st with
  | nil => exact h
  | cons e rest ih =>
    cases hs : findServer st.clients comp with
    | none => simp only [reportStatistics, hs]; exact h
    | some server =>
      cases hf : ServerStatistics.find server.maps (toUShort e.mapId) with
      | none => simp only [reportStatistics, hs, hf]; exact h
      | some v =>
        simp only [reportStatistics, hs, hf]
        apply ih
        exact forall_modifyServer P _ comp _ (hupdate e) h

/-- A property of single servers that holds for a new connection and survives
the three writes of the handler holds for every connected server after any
sequence of events. -/
theorem run_forall (P : GameServer → Prop) (hnew : ∀ peer, P (GameServer.new peer))
    (hadvertise : ∀ address port s, P s → P (advertise address port s))
    (hclaim : ∀ id s, P s → P (claimMap id s))
    (hupdate : ∀ e s, P s → P (updateMap e s))
    (gen : Nat → String) (events : List Event) (st : State) (h : ∀ s ∈ st.clients, P s) :
    ∀ s ∈ (run gen st events).clients, P s := by
  induction events generalizing st with
  | nil => exact h
  | cons e es ih =>
    apply ih
    cases e with
    | connect peer =>
      intro s hs
      simp only [step, computerConnected, List.mem_append, List.mem_singleton] at hs
      rcases hs with hs | hs
      · exact h s hs
      · rw [hs]; exact hnew peer
    | disconnect comp =>
      intro s hs
      simp only [step, computerDisconnected, List.mem_filter] at hs
      exact h s hs.1
    | message comp msg =>
      cases msg with
      | register address port maps =>
        simp only [step, processMessage_clients, dispatch]
        apply registerMaps_forall P hclaim
        exact forall_modifyServer P _ comp _ (hadvertise address port) h
      | statistics entries =>
        simp only [step, processMessage_statistics]
        exact reportStatistics_forall P hupdate entries st comp h
      | playerData id data => simp only [step, playerData_clients]; exact h
      | redirect id => simp only [step, redirect_clients]; exact h
      | playerReconnect id token => simp only [step, playerReconnect_clients]; exact h
      | getQuest id name => exact h
      | setQuest id name value => exact h
      | banPlayer id duration => exact h
      | other id => exact h

/-- What dumpStatistics writes, read off the registry: in every state the
server can reach it appends to the stream, for each connected server whose
stored port is not 0 and in connection order, one gameserver element with the
stored address and the stored `short` port containing one map element per owned
map with that map's nbThings and nbMonsters and one character element per
stored player id in stored order, and nothing for servers whose port is 0; the
maps of every server are in strictly ascending order of map id. The function
only reads the registry. -/
theorem dumpStatistics_emits_snapshot (gen : Nat → String) (st0 : State) (events : List Event)
    (os : String) (h0 : st0.clients = []) :
    GameServerHandler.dumpStatistics os (run gen st0 events).clients =
        os ++ concatAll (((run gen st0 events).clients.filter (fun s => ¬ (s.port = 0))).map
          gameserverElement) ∧
      (∀ s ∈ (run gen st0 events).clients,
        (ServerStatistics.keys s.maps).Pairwise (fun a b => a < b)) := by
  refine ⟨dumpStatistics_eq _ os, ?_⟩
  apply run_forall (fun s => Ascending s.maps) _ _ Ascending_claimMap Ascending_updateMap gen
    events st0
  · intro s hs; rw [h0] at hs; simp at hs
  · intro peer; simp [Ascending, GameServer.new, ServerStatistics.keys]
  · intro address port s h; exact h

/-- An example of the dump: A registered maps 1 and 2 advertising port 9601 and
reported a player on map 1; B never registered and does not appear. -/
theorem dumpStatistics_emits_snapshot_witness :
    exampleState.clients = [] ∧
      GameServerHandler.dumpStatistics "" (run exampleGen exampleState exampleBusyEvents).clients =
        "<gameserver address=\"a.example\" port=\"9601\">\n" ++
        "<map id=\"1\" nb_things=\"3\" nb_monsters=\"1\">\n" ++
        "<character id=\"7\"/>\n" ++
        "</map>\n" ++
        "<map id=\"2\" nb_things=\"0\" nb_monsters=\"0\">\n" ++
        "</map>\n" ++
        "</gameserver>\n" :=
  ⟨rfl,
    ((dumpStatistics_emits_snapshot exampleGen exampleState exampleBusyEvents "" rfl).1).trans
      (by rfl)⟩

/-- C17 (the code at the failing input): a connected server registers map 1
advertising address a.example and port 40000. dumpStatistics emits its
gameserver element with port="-25536", the value of the `short` member, and not
with the port 40000 the server advertised; address, map element and counts are
as the claim says. -/
theorem dump_prints_wrapped_port :
    validRun exampleGen exampleState
        [Event.connect 10, Event.message 10 (MessageIn.register "a.example" 40000 [1])] = true ∧
      GameServerHandler.dumpStatistics "" exampleHighPort.clients =
        "<gameserver address=\"a.example\" port=\"-25536\">\n" ++
        "<map id=\"1\" nb_things=\"0\" nb_monsters=\"0\">\n" ++
        "</map>\n" ++
        "</gameserver>\n" :=
  ⟨by decide, by rfl⟩

/-! ## What a message leaves alone -/

theorem registerMaps_clients_modify (ids : List Int) (st : State) (comp : Nat) :
    ∃ f : GameServer → GameServer, (∀ s, (f s).peer = s.peer) ∧
      (registerMaps st comp ids).clients = modifyServer st.clients comp f := by
  induction ids generalizing st with
  | nil => exact ⟨fun s => s, fun _ => rfl, (modifyServer_id _ _).symm⟩
  | cons id rest ih =>
    cases hg : getGameServerFromMap st.clients id with
    | some o => simp only [registerMaps, hg]; exact ih st
    | none =>
      simp only [registerMaps, hg]
      obtain ⟨f, hf, heq⟩ := ih
        { clients := modifyServer (send st comp (activeMap id)).clients comp (claimMap id)
          storage := (send st comp (activeMap id)).storage
          sent := (send st comp (activeMap id)).sent
          tokensDrawn := (send st comp (activeMap id)).tokensDrawn
          reconnects := (send st comp (activeMap id)).reconnects }
      refine ⟨fun s => f (claimMap id s), fun s => by rw [hf]; rfl, ?_⟩
      rw [heq]
      simp only [send]
      exact modifyServer_modifyServer _ _ _ _ (claimMap_peer id)

theorem reportStatistics_clients_modify (entries : List StatisticsEntry) (st : State)
    (comp : Nat) :
    ∃ f : GameServer → GameServer, (∀ s, (f s).peer = s.peer) ∧
      (reportStatistics st comp entries).clients = modifyServer st.clients comp f := by
  induction entries generalizing st with
  | nil => exact ⟨fun s => s, fun _ => rfl, (modifyServer_id _ _).symm⟩
  | cons e rest ih =>
    cases hs : findServer st.clients comp with
    | none =>
      simp only [reportStatistics, hs]
      exact ⟨fun s => s, fun _ => rfl, (modifyServer_id _ _).symm⟩
    | some server =>
      cases hf : ServerStatistics.find server.maps (toUShort e.mapId) with
      | none =>
        simp only [reportStatistics, hs, hf]
        exact ⟨fun s => s, fun _ => rfl, (modifyServer_id _ _).symm⟩
      | some v =>
        simp only [reportStatistics, hs, hf]
        obtain ⟨f, hf2, heq⟩ := ih
          { st with clients := modifyServer st.clients comp (updateMap e) }
        refine ⟨fun s => f (updateMap e s), fun s => by rw [hf2]; rfl, ?_⟩
        rw [heq]
        exact modifyServer_modifyServer _ _ _ _ (updateMap_peer e)

theorem advertise_peer (address : String) (port : Int) (s : GameServer) :
    (advertise address port s).peer = s.peer := rfl

/-- Whatever the message, the connected set afterwards is the one before with
writes made to the sender only. -/
theorem processMessage_clients_modify (gen : Nat → String) (st : State) (comp : Nat)
    (msg : MessageIn) :
    ∃ f : GameServer → GameServer, (∀ s, (f s).peer = s.peer) ∧
      (processMessage gen st comp msg).clients = modifyServer st.clients comp f := by
  have hid : ∃ f : GameServer → GameServer, (∀ s, (f s).peer = s.peer) ∧
      st.clients = modifyServer st.clients comp f :=
    ⟨fun s => s, fun _ => rfl, (modifyServer_id _ _).symm⟩
  cases msg with
  | register address port maps =>
    rw [processMessage_clients]
    simp only [dispatch]
    obtain ⟨f, hf, heq⟩ := registerMaps_clients_modify maps
      { st with clients := modifyServer st.clients comp (advertise address port) } comp
    refine ⟨fun s => f (advertise address port s), fun s => by rw [hf]; rfl, ?_⟩
    rw [heq]
    exact modifyServer_modifyServer _ _ _ _ (advertise_peer address port)
  | statistics entries =>
    rw [processMessage_statistics]
    exact reportStatistics_clients_modify entries st comp
  | playerData id data => rw [playerData_clients]; exact hid
  | redirect id => rw [redirect_clients]; exact hid
  | playerReconnect id token => rw [playerReconnect_clients]; exact hid
  | getQuest id name => rw [processMessage_clients]; exact hid
  | setQuest id name value => rw [processMessage_clients]; exact hid
  | banPlayer id duration => rw [processMessage_clients]; exact hid
  | other id => rw [processMessage_clients]; exact hid

theorem forall2_modifyServer (clients : List GameServer) (comp : Nat)
    (f : GameServer → GameServer) (hf : ∀ s, (f s).peer = s.peer) :
    List.Forall₂ (fun s t : GameServer => t.peer = s.peer ∧ (s.peer ≠ comp → t = s))
      clients (modifyServer clients comp f) := by
  induction clients with
  | nil => exact List.Forall₂.nil
  | cons a rest ih =>
    simp only [modifyServer, List.map_cons] at ih ⊢
    refine List.Forall₂.cons ?_ ih
    by_cases h : a.peer = comp
    · rw [if_pos h]
      exact ⟨hf a, fun hne => absurd h hne⟩
    · rw [if_neg h]
      exact ⟨rfl, fun _ => rfl⟩

theorem findServer_modifyServer_other (clients : List GameServer) (comp p : Nat)
    (f : GameServer → GameServer) (hf : ∀ s, (f s).peer = s.peer) (hp : p ≠ comp) :
    findServer (modifyServer clients comp f) p = findServer clients p := by
  induction clients with
  | nil => rfl
  | cons a rest ih =>
    simp only [modifyServer, List.map_cons] at ih ⊢
    by_cases h : a.peer = comp
    · have hap : ¬ a.peer = p := fun e => hp (e.symm.trans h)
      have hfp : ¬ (f a).peer = p := by rw [hf]; exact hap
      simp only [h, if_true, findServer, hfp, if_false]
      rw [h] at hap
      simp only [hap, if_false]
      exact ih
    · simp only [h, if_false, findServer]
      rw [ih]

theorem peers_modifyServer (clients : List GameServer) (comp : Nat)
    (f : GameServer → GameServer) (hf : ∀ s, (f s).peer = s.peer) :
    (modifyServer clients comp f).map GameServer.peer = clients.map GameServer.peer := by
  unfold modifyServer
  rw [List.map_map]
  apply List.map_congr_left
  intro s _
  simp only [Function.comp]
  split
  · exact hf s
  · rfl

/-- C22: for every state, every server c and every message of any type,
processMessage(c, message) leaves every connected server other than c exactly
as it was (advertised address, port, set of owned maps, stored statistics) and
never adds or removes a connection: the connected servers afterwards are the
same connections in the same order, each other than c identical to before. -/
theorem processMessage_leaves_other_servers_alone (gen : Nat → String) (st : State)
    (comp : Nat) (msg : MessageIn) :
    List.Forall₂ (fun s t : GameServer => t.peer = s.peer ∧ (s.peer ≠ comp → t = s))
        st.clients (processMessage gen st comp msg).clients ∧
      (processMessage gen st comp msg).clients.map GameServer.peer =
        st.clients.map GameServer.peer ∧
      (∀ p, p ≠ comp →
        findServer (processMessage gen st comp msg).clients p = findServer st.clients p) := by
  obtain ⟨f, hf, heq⟩ := processMessage_clients_modify gen st comp msg
  rw [heq]
  exact ⟨forall2_modifyServer _ comp f hf, peers_modifyServer _ comp f hf,
    fun p hp => findServer_modifyServer_other _ comp p f hf hp⟩

/-- Witness for C22: B sends a Register message with new maps; A, the other
connected server, is exactly as before and no connection is added or removed. -/
theorem processMessage_leaves_other_servers_alone_witness :
    (10 : Nat) ≠ 20 ∧
      findServer (processMessage exampleGen exampleAfterA 20
          (MessageIn.register "b.example" 9602 [2, 3])).clients 10 =
        findServer exampleAfterA.clients 10 ∧
      (processMessage exampleGen exampleAfterA 20
          (MessageIn.register "b.example" 9602 [2, 3])).clients.map GameServer.peer = [10, 20] :=
  ⟨by decide,
    (processMessage_leaves_other_servers_alone exampleGen exampleAfterA 20
      (MessageIn.register "b.example" 9602 [2, 3])).2.2 10 (by decide),
    (processMessage_leaves_other_servers_alone exampleGen exampleAfterA 20
      (MessageIn.register "b.example" 9602 [2, 3])).2.1.trans (by decide)⟩

/-! ## Registering again -/

/-- What a Register message does to the sender's advertised address and port:
whatever the listed maps, and also when every claim fails, a map the sender
owned before is afterwards looked up to the sender, with the address the message
carries and its port narrowed to the `short` member. -/
theorem register_readvertises (gen : Nat → String) (st : State) (comp : Nat)
    (address : String) (port : Int) (ids : List Int) (s : GameServer) (id : Int)
    (hInv : Inv st.clients) (hs : findServer st.clients comp = some s)
    (hown : owns s (toUShort id) = true) :
    ∃ t, getGameServerFromMap
        (processMessage gen st comp (MessageIn.register address port ids)).clients id = some t ∧
      t.peer = comp ∧ t.address = address ∧ t.port = toShort port := by
  have hc := connected_of_findServer _ _ _ hs
  have hmem := findServer_some_mem _ _ _ hs
  have hInv1 := processMessage_Inv gen st comp (MessageIn.register address port ids) hInv
  have hkey : toUShort id ∈ ownedKeys st.clients := (mem_ownedKeys _ _).2 ⟨s, hmem.1, hown⟩
  have hnot : toUShort id ∉ (acknowledged (ownedKeys st.clients) ids).map toUShort := by
    rw [mem_acknowledged_keys]
    exact fun h => h.2 hkey
  have hs1 : findServer (processMessage gen st comp (MessageIn.register address port ids)).clients
      comp = some (claimAll (acknowledged (ownedKeys st.clients) ids)
        (advertise address port s)) := by
    rw [processMessage_register_eq gen st comp address port ids hc]
    simp only []
    rw [findServer_modifyServer _ _ _ (claimAll_peer _),
      findServer_modifyServer st.clients comp (advertise address port)
        (advertise_peer address port), hs]
    rfl
  have hmem1 := findServer_some_mem _ _ _ hs1
  have hown1 : owns (claimAll (acknowledged (ownedKeys st.clients) ids)
      (advertise address port s)) (toUShort id) = true := by
    simp only [owns]
    rw [find_claimAll_not_mem _ _ _ hnot]
    exact hown
  cases hg : getGameServerFromMap
      (processMessage gen st comp (MessageIn.register address port ids)).clients id with
  | none =>
    rw [getGameServerFromMap_eq_none] at hg
    rw [hg _ hmem1.1] at hown1
    exact absurd hown1 Bool.false_ne_true
  | some t =>
    have ht := getGameServerFromMap_some _ _ _ hg
    have hpeer : t.peer = comp := by
      by_contra hne
      have hne2 : t.peer ≠ (claimAll (acknowledged (ownedKeys st.clients) ids)
          (advertise address port s)).peer := by
        rw [hmem1.2]; exact hne
      exact Inv_not_both _ hInv1 t _ ht.1 hmem1.1 hne2 (toUShort id) ⟨ht.2, hown1⟩
    have hlook := lookup_after_register gen st comp address port ids id t "" 0 hc hg hpeer
    simp only [GameServerHandler.getGameServerFromMap, hg, Prod.mk.injEq, true_and] at hlook
    exact ⟨t, rfl, hpeer, hlook.1, hlook.2⟩

/-- C21 (the code at the failing input): B owns map 3 and has advertised
b.example and port 9602; it sends a second Register message carrying
new.example, port 40000 and map 3 again, so that every claim fails and no
acknowledgement is sent. Afterwards the owner lookup for map 3 reports the new
address, but reports the port as -25536, the value of the `short` member, not
40000; the redirect reply for a character on map 3 carries the new address and
the 16 bits of 40000. -/
theorem reregister_lookup_reports_wrapped_port :
    GameServerHandler.getGameServerFromMap exampleWithTraveller.clients 3 "" 0 =
        (true, "b.example", 9602) ∧
      exampleReregistered.sent = exampleWithTraveller.sent ∧
      GameServerHandler.getGameServerFromMap exampleReregistered.clients 3 "" 0 =
        (true, "new.example", -25536) ∧
      (processMessage exampleGen exampleReregistered 10 (MessageIn.redirect 8)).sent =
        exampleReregistered.sent ++
          [(20, [Field.msgId OutId.AGMSG_PLAYER_ENTER, Field.fixedString "token", Field.long 8,
              Field.string "eve", Field.characterData { mapId := 3, attributes := [4, 2] }]),
           (10, [Field.msgId OutId.AGMSG_REDIRECT_RESPONSE, Field.long 8,
              Field.fixedString "token", Field.string "new.example", Field.short 40000])] := by
  decide

/-! ## Termination of the two loops -/

/-- The Register loop on a message whose unread length is 2n bytes, for a codec
whose `readShort` consumes two bytes when at least two are unread: with fuel for
n runs of the body the loop finishes, having claimed the n ids read, and with
less fuel it is still running when the fuel is used up. -/
theorem registerLoop_eq {C : Type} (codec : Codec C) (comp : Nat)
    (hshort : ∀ c, 2 ≤ codec.getUnreadLength c →
      codec.getUnreadLength (codec.readShort c).2 = codec.getUnreadLength c - 2)
    (n : Nat) (fuel : Nat) (st : State) (msg : C)
    (hlen : codec.getUnreadLength msg = 2 * (n : Int)) :
    registerLoop codec comp fuel st msg =
      if n ≤ fuel then LoopResult.finished (registerMaps st comp (readShorts codec n msg))
      else LoopResult.outOfFuel := by
  induction n generalizing fuel st msg with
  | zero =>
    have h0 : codec.getUnreadLength msg = 0 := by simpa using hlen
    cases fuel <;> simp [registerLoop, h0, readShorts, registerMaps]
  | succ n ih =>
    have hne : ¬ codec.getUnreadLength msg = 0 := by omega
    cases fuel with
    | zero => simp [registerLoop, hne]
    | succ f =>
      have hnext : codec.getUnreadLength (codec.readShort msg).2 = 2 * (n : Int) := by
        rw [hshort msg (by omega)]; omega
      have hfuel : (n + 1 ≤ f + 1) = (n ≤ f) := by simp
      cases hg : getGameServerFromMap st.clients (codec.readShort msg).1 with
      | some o =>
        simp only [registerLoop, hne, if_false, hg, readShorts, registerMaps, hfuel]
        exact ih f st _ hnext
      | none =>
        simp only [registerLoop, hne, if_false, hg, readShorts, registerMaps, hfuel]
        exact ih f _ _ hnext

/-- The premise on the length is needed: for a codec whose `readShort` always
moves two bytes on, a Register payload of odd length makes the loop run for
ever: whatever the fuel, the loop condition is still true when it is used up. -/
theorem registerLoop_odd_length_never_ends {C : Type} (codec : Codec C) (comp : Nat)
    (hshort : ∀ c, codec.getUnreadLength (codec.readShort c).2 = codec.getUnreadLength c - 2)
    (fuel : Nat) (st : State) (msg : C) (hodd : codec.getUnreadLength msg % 2 = 1) :
    registerLoop codec comp fuel st msg = LoopResult.outOfFuel := by
  induction fuel generalizing st msg with
  | zero =>
    have hne : ¬ codec.getUnreadLength msg = 0 := by omega
    simp [registerLoop, hne]
  | succ f ih =>
    have hne : ¬ codec.getUnreadLength msg = 0 := by omega
    have hnext : codec.getUnreadLength (codec.readShort msg).2 % 2 = 1 := by
      rw [hshort msg]; omega
    cases hg : getGameServerFromMap st.clients (codec.readShort msg).1 with
    | some o =>
      simp only [registerLoop, hne, if_false, hg]
      exact ih st _ hnext
    | none =>
      simp only [registerLoop, hne, if_false, hg]
      exact ih _ _ hnext

/-- The Statistics loop on a message made of complete entries: with fuel for as
many runs of the body as there are entries the loop finishes, in the state the
loop over the decoded entries gives. -/
theorem statisticsLoop_eq {C : Type} (codec : Codec C) (comp : Nat)
    (entries : List StatisticsEntry) (fuel : Nat) (st : State) (msg : C)
    (hmsg : Complete codec entries msg) (hfuel : entries.length ≤ fuel) :
    statisticsLoop codec comp fuel st msg =
      LoopResult.finished (reportStatistics st comp entries) := by
  induction entries generalizing fuel st msg with
  | nil =>
    have h0 : codec.getUnreadLength msg = 0 := hmsg
    cases fuel <;> simp [statisticsLoop, h0, reportStatistics]
  | cons e rest ih =>
    obtain ⟨hne, h0, h1, h2, h3, hps, hrest⟩ := hmsg
    cases fuel with
    | zero => simp at hfuel
    | succ f =>
      have hf : rest.length ≤ f := by simpa using hfuel
      cases hs : findServer st.clients comp with
      | none => simp only [statisticsLoop, hne, if_false, hs, reportStatistics]
      | some server =>
        cases hfind : ServerStatistics.find server.maps (toUShort e.mapId) with
        | none => simp only [statisticsLoop, hne, if_false, hs, h0, hfind, reportStatistics]
        | some v =>
          have hnb : ¬ (codec.readShort (codec.readShort (codec.readShort
              (codec.readShort msg).2).2).2).1 < 0 := by
            rw [h3]; omega
          have hentry : (⟨e.mapId, e.nbThings, e.nbMonsters, e.players⟩ : StatisticsEntry) = e :=
            rfl
          simp only [statisticsLoop, hne, if_false, hs, h0, hfind, reportStatistics, hnb, h1, h2,
            h3, Int.toNat_ofNat, hps, hentry]
          exact ih f _ _ hrest hf

/-- C23: for a Register message whose payload after the address and port
fields is 2n bytes long, read through a codec whose `readShort` consumes two
bytes, the loop of the handler ends after exactly n claim attempts: n runs of
the body are enough and fewer are not, n is the count logged as unread length
/ 2, and the handler is then in the state processMessage gives for the n ids
read. For a Statistics message made of complete entries the loop ends after at
most as many runs of the body as there are entries, in the state processMessage
gives for these entries. -/
theorem register_and_statistics_loops_terminate {C : Type} (codec : Codec C)
    (gen : Nat → String) (st : State) (comp : Nat) :
    (∀ (address : String) (port : Int) (msg : C) (n fuel : Nat),
        (∀ c, 2 ≤ codec.getUnreadLength c →
          codec.getUnreadLength (codec.readShort c).2 = codec.getUnreadLength c - 2) →
        codec.getUnreadLength msg = 2 * (n : Int) →
        (n ≤ fuel →
          registerLoop codec comp fuel
              { st with clients := modifyServer st.clients comp (advertise address port) } msg =
            LoopResult.finished (processMessage gen st comp
              (MessageIn.register address port (readShorts codec n msg)))) ∧
          (fuel < n →
            registerLoop codec comp fuel
                { st with clients := modifyServer st.clients comp (advertise address port) } msg =
              LoopResult.outOfFuel) ∧
          codec.getUnreadLength msg / 2 = (n : Int)) ∧
      (∀ (msg : C) (entries : List StatisticsEntry) (fuel : Nat),
        Complete codec entries msg → entries.length ≤ fuel →
        statisticsLoop codec comp fuel st msg =
          LoopResult.finished (processMessage gen st comp (MessageIn.statistics entries))) := by
  constructor
  · intro address port msg n fuel hshort hlen
    have hloop := registerLoop_eq codec comp hshort n fuel
      { st with clients := modifyServer st.clients comp (advertise address port) } msg hlen
    have hproc : processMessage gen st comp
        (MessageIn.register address port (readShorts codec n msg)) =
        registerMaps { st with clients := modifyServer st.clients comp (advertise address port) }
          comp (readShorts codec n msg) := by
      simp [processMessage, dispatch]
    refine ⟨?_, ?_, ?_⟩
    · intro hn
      rw [hloop, if_pos hn, hproc]
    · intro hn
      rw [hloop, if_neg (by omega)]
    · rw [hlen]; omega
  · intro msg entries fuel hmsg hfuel
    rw [statisticsLoop_eq codec comp entries fuel st msg hmsg hfuel, processMessage_statistics]

/-- Witness for C23: B registers with a payload of 6 bytes, maps 2, 3 and 3:
the loop ends after 3 runs of the body and not after 2. A reports three complete
statistics entries: the loop ends within 3 runs. -/
theorem register_and_statistics_loops_terminate_witness :
    exampleCodec.getUnreadLength exampleRegisterPayload = 2 * ((3 : Nat) : Int) ∧
      registerLoop exampleCodec 20 3
          { exampleAfterA with
            clients := modifyServer exampleAfterA.clients 20 (advertise "b.example" 9602) }
          exampleRegisterPayload =
        LoopResult.finished (processMessage exampleGen exampleAfterA 20
          (MessageIn.register "b.example" 9602 [2, 3, 3])) ∧
      registerLoop exampleCodec 20 2
          { exampleAfterA with
            clients := modifyServer exampleAfterA.clients 20 (advertise "b.example" 9602) }
          exampleRegisterPayload = LoopResult.outOfFuel ∧
      Complete exampleCodec exampleStatisticsEntries exampleStatisticsPayload ∧
      statisticsLoop exampleCodec 10 3 exampleRegistered exampleStatisticsPayload =
        LoopResult.finished (processMessage exampleGen exampleRegistered 10
          (MessageIn.statistics exampleStatisticsEntries)) :=
  ⟨by decide,
    ((register_and_statistics_loops_terminate exampleCodec exampleGen exampleAfterA 20).1
      "b.example" 9602 exampleRegisterPayload 3 3
      (by intro c hc; simp only [exampleCodec] at hc ⊢; push_cast; omega) (by decide)).1
      (by decide),
    ((register_and_statistics_loops_terminate exampleCodec exampleGen exampleAfterA 20).1
      "b.example" 9602 exampleRegisterPayload 3 2
      (by intro c hc; simp only [exampleCodec] at hc ⊢; push_cast; omega) (by decide)).2.1
      (by decide),
    by simp only [Complete, exampleStatisticsEntries]; decide,
    (register_and_statistics_loops_terminate exampleCodec exampleGen exampleRegistered 10).2
      exampleStatisticsPayload exampleStatisticsEntries 3
      (by simp only [Complete, exampleStatisticsEntries]; decide) (by decide)⟩

end Manaserv
